import Mathlib

/-! Shallow embedding of the jsr-utils scheduler sources (the cancellable
delay `sleep`, the `JobPromise` cancellable future, and the `JobQueue`
batch scheduler from `src/sleep.ts`), together with proofs checking the
natural-language specification against it.

Modelling conventions:
* Job ids `job-<n>` are represented by their counter value `n`; the rendered
  string appears, via `mkJobId`, wherever the source interpolates it into an
  error message.
* Promise settlement is modelled by an association list from job id to the
  first settlement; `resolve` / `reject` calls after settlement are no-ops,
  as for a JS promise (`settleOnce`).
* Event emission appends to an `events` trace tagged with the current virtual
  time, and also delivers the event to every listener registered for its kind
  (`delivered` log).  Listeners are modelled as inert observers.
* The single-threaded cooperative event loop is modelled at the granularity
  of its atomic segments: the code between two suspension points (`await`)
  runs without interleaving.  `Step` enumerates these segments; the timed
  functions (`runBatchTimed`, `loopStepTimed`, `processLoopTimed`) replay a
  whole loop iteration with processors that settle after a given duration,
  completions firing in timer order (earlier deadline first, ties in
  registration order). -/

namespace JsrUtils

/-- A JavaScript Error object, modelled by its message string. -/
structure ErrorObj where
  message : String
deriving DecidableEq

/-- A value thrown by a job processor: either a genuine Error object, or an
arbitrary non-Error value modelled by its String(...) conversion. -/
inductive Thrown where
  | err (e : ErrorObj)
  | raw (s : String)
deriving DecidableEq

/-- Error normalization from the catch block of `processAvailableJobs`:
`error instanceof Error ? error : new Error(String(error))`. -/
def normalizeError : Thrown → ErrorObj
  | Thrown.err e => e
  | Thrown.raw s => ⟨s⟩

/-- The behaviour of the optional AbortSignal passed to `sleep`: absent,
already aborted at call time, or (not yet aborted) firing its abort event
`abortAt` milliseconds after the call (`none` = never fired). -/
inductive SignalModel where
  | noSignal
  | signal (alreadyAborted : Bool) (abortAt : Option Nat)
deriving DecidableEq

deriving instance DecidableEq for Except

/-- The observable outcome of one `sleep(ms, {signal})` call: how the promise
settles, when (milliseconds after the call), whether a `setTimeout` timer was
registered, and whether `clearTimeout` was invoked on it. -/
structure SleepRun where
  outcome : Except ErrorObj Unit
  settleTime : Option Nat
  timerRegistered : Bool
  timerCleared : Bool
deriving DecidableEq

/-- `sleep` from `src/sleep.ts`.  If `signal?.aborted` holds at call time the
promise is rejected with `new Error("Aborted")` before any timer is set.
Otherwise a timer for `ms` is armed and an abort listener attached: if the
abort event fires strictly before the timer deadline, the timer is cleared
and the promise rejected with `new Error("Aborted")`; otherwise the timer
fires and the promise resolves at `ms`. -/
def sleep (ms : Nat) (sig : SignalModel) : SleepRun :=
  match sig with
  | SignalModel.noSignal => ⟨Except.ok (), some ms, true, false⟩
  | SignalModel.signal true _ => ⟨Except.error ⟨"Aborted"⟩, some 0, false, false⟩
  | SignalModel.signal false none => ⟨Except.ok (), some ms, true, false⟩
  | SignalModel.signal false (some t) =>
      if t < ms then ⟨Except.error ⟨"Aborted"⟩, some t, true, true⟩
      else ⟨Except.ok (), some ms, true, false⟩

/-- One entry of the `JobQueue` pending queue: the fields of the source `Job`
record that carry state (`abortController` state is tracked per id in
`QState.controllers`, promise settlement in `QState.settlements`). -/
structure Job (α : Type) where
  id : Nat
  data : α
deriving DecidableEq

/-- How a job promise settled: `resolve(v)` or `reject(reason)`. -/
inductive Settlement (β : Type) where
  | resolved (v : β)
  | rejected (e : Thrown)
deriving DecidableEq

/-- The five `JobQueue` event kinds with their payloads (the `error` event of
the source is `fatalError` here). -/
inductive Event (α β : Type) where
  | jobStart (jobId : Nat) (data : α)
  | jobComplete (jobId : Nat) (data : α) (result : β)
  | jobError (jobId : Nat) (data : α) (error : ErrorObj)
  | queueEmpty
  | fatalError (error : ErrorObj)
deriving DecidableEq

/-- The job id carried by a `jobStart` event, `none` for every other kind. -/
def startId? {α β : Type} : Event α β → Option Nat
  | Event.jobStart i _ => some i
  | _ => none

/-- Event kinds, for listener registration. -/
inductive EventKind where
  | jobStart
  | jobComplete
  | jobError
  | queueEmpty
  | error
deriving DecidableEq

/-- The kind of an event. -/
def kindOf {α β : Type} : Event α β → EventKind
  | Event.jobStart _ _ => EventKind.jobStart
  | Event.jobComplete _ _ _ => EventKind.jobComplete
  | Event.jobError _ _ _ => EventKind.jobError
  | Event.queueEmpty => EventKind.queueEmpty
  | Event.fatalError _ => EventKind.error

/-- The `listeners` record of the source: one ordered callback list per event
kind; callbacks are identified by opaque numeric ids. -/
structure ListenersRec where
  jobStart : List Nat
  jobComplete : List Nat
  jobError : List Nat
  queueEmpty : List Nat
  error : List Nat
deriving DecidableEq

/-- Read the callback list for one event kind. -/
def listenersGet (r : ListenersRec) : EventKind → List Nat
  | EventKind.jobStart => r.jobStart
  | EventKind.jobComplete => r.jobComplete
  | EventKind.jobError => r.jobError
  | EventKind.queueEmpty => r.queueEmpty
  | EventKind.error => r.error

/-- Replace the callback list for one event kind. -/
def listenersSet (r : ListenersRec) : EventKind → List Nat → ListenersRec
  | EventKind.jobStart, l => { r with jobStart := l }
  | EventKind.jobComplete, l => { r with jobComplete := l }
  | EventKind.jobError, l => { r with jobError := l }
  | EventKind.queueEmpty, l => { r with queueEmpty := l }
  | EventKind.error, l => { r with error := l }

/-- Association-list lookup on numeric keys (first match wins, as for the
first settlement of a promise). -/
def alookup {γ : Type} (k : Nat) : List (Nat × γ) → Option γ
  | [] => none
  | p :: ps => if p.1 = k then some p.2 else alookup k ps

/-- Overwrite the value stored under a key (used for aborting a controller). -/
def setAssoc {γ : Type} (k : Nat) (v : γ) : List (Nat × γ) → List (Nat × γ)
  | [] => []
  | p :: ps => if p.1 = k then (p.1, v) :: setAssoc k v ps else p :: setAssoc k v ps

/-- `Set.add`: insert an element unless already present. -/
def insertSet (a : Nat) (l : List Nat) : List Nat :=
  if a ∈ l then l else a :: l

/-- `Set.delete` on a list model: remove the first occurrence. -/
def eraseFirst (a : Nat) : List Nat → List Nat
  | [] => []
  | b :: bs => if b = a then bs else b :: eraseFirst a bs

/-- `Array.splice(i, 1)`: drop the element at index `i`. -/
def spliceOut {γ : Type} : Nat → List γ → List γ
  | _, [] => []
  | 0, _ :: xs => xs
  | n + 1, x :: xs => x :: spliceOut n xs

/-- `Array.findIndex(job => job.id === jobId)`, with `none` for `-1`. -/
def findJobIdx {α : Type} (target : Nat) : List (Job α) → Option Nat
  | [] => none
  | j :: js =>
      if j.id = target then some 0
      else Option.map (fun n => n + 1) (findJobIdx target js)

/-- `Array.find(job => job.id === jobId)`. -/
def findJob {α : Type} (target : Nat) : List (Job α) → Option (Job α)
  | [] => none
  | j :: js => if j.id = target then some j else findJob target js

/-- The id string `job-<n>` assigned on submission. -/
def mkJobId (n : Nat) : String := "job-" ++ toString n

/-- The scheduler state: the mutable fields of a `JobQueue` instance plus the
settlement state of every job promise it handed out, the abort state of every
controller it created, the trace of emitted events (tagged with virtual time
`now`), and the listener delivery log. -/
structure QState (α β : Type) where
  maxConcurrent : Nat
  intervalMs : Nat
  now : Nat
  queue : List (Job α)
  running : List Nat
  jobCounter : Nat
  processingActive : Bool
  controllers : List (Nat × Bool)
  settlements : List (Nat × Settlement β)
  events : List (Nat × Event α β)
  listeners : ListenersRec
  delivered : List (Nat × Event α β)
deriving DecidableEq

/-- The state built by the `JobQueue` constructor: empty collections, and the
processing flag already set (the constructor calls `startProcessing`
synchronously; the loop body itself first runs on a later microtask). -/
def initState (α β : Type) (maxConcurrent intervalMs : Nat) : QState α β where
  maxConcurrent := maxConcurrent
  intervalMs := intervalMs
  now := 0
  queue := []
  running := []
  jobCounter := 0
  processingActive := true
  controllers := []
  settlements := []
  events := []
  listeners := ⟨[], [], [], [], []⟩
  delivered := []

/-- `emitEvent`: record the event in the trace and deliver it to every
listener currently registered for its kind (in registration order; a throwing
listener is caught by the source, so delivery is total). -/
def emitEventFn {α β : Type} (e : Event α β) (st : QState α β) : QState α β :=
  { st with
    events := st.events ++ [(st.now, e)],
    delivered :=
      st.delivered ++ (listenersGet st.listeners (kindOf e)).map (fun lid => (lid, e)) }

/-- `abortController.abort()` for the controller of the given job id. -/
def triggerAbort {α β : Type} (id : Nat) (st : QState α β) : QState α β :=
  { st with controllers := setAssoc id true st.controllers }

/-- Settle the promise of the given job id, a no-op if already settled. -/
def settleOnce {α β : Type} (id : Nat) (v : Settlement β) (st : QState α β) : QState α β :=
  match alookup id st.settlements with
  | some _ => st
  | none => { st with settlements := st.settlements ++ [(id, v)] }

/-- `addJob(data)`: assign the next sequential id, create its (unaborted)
controller, append the job to the queue, and restart processing if the loop
flag was cleared.  Returns the id carried by the `JobPromise`. -/
def addJobFn {α β : Type} (data : α) (st : QState α β) : Nat × QState α β :=
  let jobId := st.jobCounter + 1
  let st1 : QState α β :=
    { st with
      jobCounter := jobId,
      controllers := st.controllers ++ [(jobId, false)],
      queue := st.queue ++ [⟨jobId, data⟩] }
  if st1.processingActive then (jobId, st1)
  else (jobId, { st1 with processingActive := true })

/-- `abortJob(jobId)` from the source, kept branch for branch: a job found in
the pending queue is aborted, rejected with the `Job <id> aborted` error and
spliced out; otherwise, if the id is in the running set, the job record is
searched for in the pending queue (the source keeps no record of running
jobs), aborted only if found there; otherwise `false`. -/
def abortJobFn {α β : Type} (jobId : Nat) (st : QState α β) : Bool × QState α β :=
  match findJobIdx jobId st.queue with
  | some queueIndex =>
      let st1 := triggerAbort jobId st
      let st2 :=
        settleOnce jobId
          (Settlement.rejected (Thrown.err ⟨"Job " ++ mkJobId jobId ++ " aborted"⟩)) st1
      (true, { st2 with queue := spliceOut queueIndex st2.queue })
  | none =>
      if jobId ∈ st.running then
        match findJob jobId st.queue with
        | some _ => (true, triggerAbort jobId st)
        | none => (false, st)
      else (false, st)

/-- `JobPromise.abort()`: invoke the scheduler callback bound at construction
(`abortJob.bind(this)`) with the promise's job id; the return value is
discarded. -/
def jobPromiseAbort {α β : Type} (jobId : Nat) (st : QState α β) : QState α β :=
  (abortJobFn jobId st).2

/-- `addEventListener(kind, listener)`: push the callback. -/
def addListenerFn {α β : Type} (k : EventKind) (lid : Nat) (st : QState α β) : QState α β :=
  { st with listeners := listenersSet st.listeners k (listenersGet st.listeners k ++ [lid]) }

/-- `removeEventListener(kind, listener)`: splice out the first occurrence of
the callback, by identity; absent callbacks are a no-op. -/
def removeListenerFn {α β : Type} (k : EventKind) (lid : Nat) (st : QState α β) : QState α β :=
  { st with listeners := listenersSet st.listeners k (eraseFirst lid (listenersGet st.listeners k)) }

/-- The batch size `Math.min(maxConcurrent - running.size, queue.length)`,
clamped at zero (the source skips the batch when the min is not positive,
which coincides with truncated subtraction yielding zero). -/
def batchSize {α β : Type} (st : QState α β) : Nat :=
  min (st.maxConcurrent - st.running.length) st.queue.length

/-- One turn of the dispatch for-loop in `processAvailableJobs`: shift the
front job, add its id to the running set, and (synchronously, inside its
processing IIFE) emit `jobStart`.  The processor call suspends immediately
after. -/
def dispatchOne {α β : Type} (st : QState α β) : QState α β :=
  match st.queue with
  | [] => st
  | job :: rest =>
      emitEventFn (Event.jobStart job.id job.data)
        { st with queue := rest, running := insertSet job.id st.running }

/-- Dispatch `k` jobs from the front of the queue, in order. -/
def dispatchK {α β : Type} : Nat → QState α β → QState α β
  | 0, st => st
  | k + 1, st => dispatchK k (dispatchOne st)

/-- The event emitted when a processor settles: `jobComplete` with the result
on success, `jobError` with the normalized error on failure. -/
def eventOfOutcome {α β : Type} (id : Nat) (d : α) : Except Thrown β → Event α β
  | Except.ok r => Event.jobComplete id d r
  | Except.error e => Event.jobError id d (normalizeError e)

/-- How the job promise is settled when the processor settles: `resolve` with
the result, or `reject` with the original thrown value (the source passes the
raw `error` to `job.reject`, not the normalized one). -/
def settlementOfOutcome {β : Type} : Except Thrown β → Settlement β
  | Except.ok r => Settlement.resolved r
  | Except.error e => Settlement.rejected e

/-- The continuation of one job's processing IIFE once its processor settles:
emit `jobComplete` / `jobError`, settle the promise, and finally delete the
id from the running set.  All of this runs in one atomic segment. -/
def finishJobFn {α β : Type} (id : Nat) (d : α) (out : Except Thrown β) (st : QState α β) :
    QState α β :=
  let s1 := emitEventFn (eventOfOutcome id d out) st
  let s2 := settleOnce id (settlementOfOutcome out) s1
  { s2 with running := eraseFirst id s2.running }

/-- The per-job body of the `dispose` loop: abort the controller and reject
the promise with the `JobQueue disposed` error. -/
def disposeSettle {α β : Type} (s : QState α β) (job : Job α) : QState α β :=
  settleOnce job.id (Settlement.rejected (Thrown.err ⟨"JobQueue disposed"⟩))
    (triggerAbort job.id s)

/-- `dispose()`: clear the processing flag, abort and reject every job still
in the pending queue, then empty the queue.  Running jobs are not touched. -/
def disposeFn {α β : Type} (st : QState α β) : QState α β :=
  let st1 : QState α β := { st with processingActive := false }
  let st2 := st1.queue.foldl disposeSettle st1
  { st2 with queue := [] }

/-- Stable insertion (existing entries with an equal or smaller duration stay
in front), used to order batch completions by timer deadline with ties in
registration order. -/
def insertByDur {α : Type} (dur : α → Nat) (x : Job α) : List (Job α) → List (Job α)
  | [] => [x]
  | y :: ys =>
      if dur y.data ≤ dur x.data then y :: insertByDur dur x ys
      else x :: y :: ys

/-- Stable sort of a batch by processor duration. -/
def sortByDur {α : Type} (dur : α → Nat) : List (Job α) → List (Job α)
  | [] => []
  | x :: xs => insertByDur dur x (sortByDur dur xs)

/-- One full `processAvailableJobs` call against processors that settle
`dur data` milliseconds after launch with outcome `out data`: dispatch the
batch (all `jobStart` events fire in this first atomic segment), then replay
each completion segment in deadline order, and return only when every
processor of the batch has settled (`await Promise.all`). -/
def runBatchTimed {α β : Type} (dur : α → Nat) (out : α → Except Thrown β)
    (st : QState α β) : QState α β :=
  let k := batchSize st
  if k = 0 then st
  else
    let batch := st.queue.take k
    let st1 := dispatchK k st
    let t0 := st1.now
    (sortByDur dur batch).foldl
      (fun s job => finishJobFn job.id job.data (out job.data) { s with now := t0 + dur job.data })
      st1

/-- One iteration of the `processLoop` while-loop: run a batch to completion;
if both the queue and the running set are then empty, emit `queueEmpty`,
clear the processing flag and stop (`true`); otherwise wait `intervalMs`
(or yield, when zero) and continue. -/
def loopStepTimed {α β : Type} (dur : α → Nat) (out : α → Except Thrown β)
    (st : QState α β) : QState α β × Bool :=
  let st1 := runBatchTimed dur out st
  if st1.queue.isEmpty && st1.running.isEmpty then
    let st2 := emitEventFn Event.queueEmpty st1
    if st2.queue.isEmpty then ({ st2 with processingActive := false }, true)
    else ({ st2 with now := st2.now + st2.intervalMs }, false)
  else
    ({ st1 with now := st1.now + st1.intervalMs }, false)

/-- Iterate the processing loop until it stops itself (fuel-bounded). -/
def processLoopTimed {α β : Type} (dur : α → Nat) (out : α → Except Thrown β) :
    Nat → QState α β → QState α β
  | 0, st => st
  | fuel + 1, st =>
      let r := loopStepTimed dur out st
      if r.2 then r.1 else processLoopTimed dur out fuel r.1

/-- The atomic segments of the cooperative scheduler: each constructor is one
stretch of source code that runs without suspension.  `dispatch` covers every
instant of the dispatch for-loop by allowing any number of turns up to the
batch size computed at iteration start. -/
inductive Step {α β : Type} : QState α β → QState α β → Prop where
  | addJob (st : QState α β) (data : α) : Step st (addJobFn data st).2
  | abortJob (st : QState α β) (id : Nat) : Step st (abortJobFn id st).2
  | dispatch (st : QState α β) (k : Nat) (h : k ≤ batchSize st) : Step st (dispatchK k st)
  | finish (st : QState α β) (id : Nat) (d : α) (out : Except Thrown β)
      (h : id ∈ st.running) : Step st (finishJobFn id d out st)
  | emptyCheck (st : QState α β) (hq : st.queue = []) (hr : st.running = []) :
      Step st { emitEventFn Event.queueEmpty st with processingActive := false }
  | dispose (st : QState α β) : Step st (disposeFn st)
  | addListener (st : QState α β) (k : EventKind) (lid : Nat) :
      Step st (addListenerFn k lid st)
  | removeListener (st : QState α β) (k : EventKind) (lid : Nat) :
      Step st (removeListenerFn k lid st)

/-- Reachability along atomic segments. -/
def Reachable {α β : Type} (s s2 : QState α β) : Prop :=
  Relation.ReflTransGen Step s s2

/-- The structural invariants of a scheduler state, maintained by every
atomic segment: the concurrency bound, uniqueness and disjointness of the
collections, id freshness with respect to the counter, settled jobs being in
neither collection, every queued job owning a controller, and `jobStart`
events only ever naming already-assigned, no-longer-queued ids. -/
structure WF {α β : Type} (st : QState α β) : Prop where
  runBound : st.running.length ≤ st.maxConcurrent
  queueNodup : (st.queue.map Job.id).Nodup
  runNodup : st.running.Nodup
  qrDisjoint : ∀ id ∈ st.queue.map Job.id, id ∉ st.running
  queueLe : ∀ id ∈ st.queue.map Job.id, id ≤ st.jobCounter
  runLe : ∀ id ∈ st.running, id ≤ st.jobCounter
  settLe : ∀ p ∈ st.settlements, p.1 ≤ st.jobCounter
  ctrlLe : ∀ p ∈ st.controllers, p.1 ≤ st.jobCounter
  settledOutQ : ∀ p ∈ st.settlements, p.1 ∉ st.queue.map Job.id
  settledOutR : ∀ p ∈ st.settlements, p.1 ∉ st.running
  ctrlCover : ∀ id ∈ st.queue.map Job.id, (alookup id st.controllers).isSome = true
  startLe : ∀ te ∈ st.events, ∀ i, startId? te.2 = some i → i ≤ st.jobCounter
  startNotQueued : ∀ te ∈ st.events, ∀ j ∈ st.queue, startId? te.2 ≠ some j.id

/-- After a pending job has been cancelled, nothing about it remains: the id
is out of the queue, stale (at most the counter), and no `jobStart` event for
it was ever emitted.  Preserved by every atomic segment. -/
def NoMoreStart {α β : Type} (id : Nat) (st : QState α β) : Prop :=
  (∀ j ∈ st.queue, j.id ≠ id) ∧ id ≤ st.jobCounter ∧
    (∀ te ∈ st.events, startId? te.2 ≠ some id)

/-- Identity duration: job data is its processing time in milliseconds. -/
def natDur : Nat → Nat := fun d => d

/-- Processors that succeed, returning their data. -/
def natOk : Nat → Except Thrown Nat := fun d => Except.ok d

/-- Three jobs of durations 30, 10 and 20 submitted in that order to a
scheduler with concurrency limit 2, before the first loop microtask runs. -/
def c4Queued : QState Nat Nat :=
  (addJobFn 20 ((addJobFn 10 ((addJobFn 30 (initState Nat Nat 2 0)).2)).2)).2

/-- The state once the dispatch loop has drained the three jobs. -/
def c4Final : QState Nat Nat := processLoopTimed natDur natOk 5 c4Queued

/-- A freshly constructed scheduler, before any microtask runs. -/
def c10Constructed : QState Nat Nat := initState Nat Nat 1 0

/-- A `queueEmpty` listener registered synchronously after construction. -/
def c10Listening : QState Nat Nat := addListenerFn EventKind.queueEmpty 7 c10Constructed

/-- The state after the first loop iteration of the freshly constructed,
still-empty scheduler. -/
def c10Final : QState Nat Nat := (loopStepTimed natDur natOk c10Listening).1

/-- One job submitted to a limit-1 scheduler. -/
def onePendingSt : QState Nat Nat := (addJobFn 5 (initState Nat Nat 1 0)).2

/-- That job dispatched: id 1 is running and the queue is empty (the loop is
awaiting its processor). -/
def oneRunningSt : QState Nat Nat := dispatchK 1 onePendingSt

/-- The running job's processor throws the non-Error value "boom". -/
def c7Bad : QState Nat Nat :=
  finishJobFn 1 5 (Except.error (Thrown.raw "boom")) oneRunningSt

/-- Processors where job data 1 throws the raw value "boom" and every other
job succeeds. -/
def c7Out : Nat → Except Thrown Nat :=
  fun d => if d = 1 then Except.error (Thrown.raw "boom") else Except.ok d

/-- Two jobs on a limit-2 scheduler, the first of which will fail. -/
def c7Pair : QState Nat Nat :=
  (addJobFn 2 ((addJobFn 1 (initState Nat Nat 2 0)).2)).2

/-- The drained state: the failing job must not stop the loop. -/
def c7PairEnd : QState Nat Nat := processLoopTimed natDur c7Out 3 c7Pair

/-- Two jobs submitted to a limit-1 scheduler. -/
def c8Queued : QState Nat Nat :=
  (addJobFn 60 ((addJobFn 50 (initState Nat Nat 1 0)).2)).2

/-- First loop iteration under way: job 1 running (the loop awaits its
processor), job 2 still pending. -/
def c8Mid : QState Nat Nat := dispatchK (batchSize c8Queued) c8Queued

/-- `dispose()` called at that instant. -/
def c8Disposed : QState Nat Nat := disposeFn c8Mid

/-- Job 1's processor later settles normally (its signal was never aborted). -/
def c8AfterRun : QState Nat Nat :=
  finishJobFn 1 50 (Except.ok 50) { c8Disposed with now := 50 }

/-- The loop's continuation after the barrier: nothing left, it stops. -/
def c8End : QState Nat Nat := (loopStepTimed natDur natOk c8AfterRun).1

/-! Helper lemmas about the list primitives. -/

theorem alookup_append_left {γ : Type} (k : Nat) (v : γ) (l1 l2 : List (Nat × γ))
    (h : alookup k l1 = some v) : alookup k (l1 ++ l2) = some v := by
  induction l1 with
  | nil => simp [alookup] at h
  | cons p ps ih =>
      by_cases hp : p.1 = k
      · simpa [alookup, hp] using h
      · simp only [alookup, hp, if_false, List.cons_append] at h ⊢
        exact ih h

theorem alookup_append_right {γ : Type} (k : Nat) (l1 l2 : List (Nat × γ))
    (h : alookup k l1 = none) : alookup k (l1 ++ l2) = alookup k l2 := by
  induction l1 with
  | nil => rfl
  | cons p ps ih =>
      by_cases hp : p.1 = k
      · simp [alookup, hp] at h
      · simp only [alookup, hp, if_false, List.cons_append] at h ⊢
        exact ih h

theorem alookup_mem {γ : Type} (k : Nat) (v : γ) (l : List (Nat × γ))
    (h : alookup k l = some v) : (k, v) ∈ l := by
  induction l with
  | nil => simp [alookup] at h
  | cons p ps ih =>
      by_cases hp : p.1 = k
      · simp only [alookup, hp, if_true] at h
        cases h
        have hpk : (k, p.2) = p := by cases p; simp_all
        rw [hpk]
        exact List.mem_cons_self _ _
      · simp only [alookup, hp, if_false] at h
        exact List.mem_cons_of_mem _ (ih h)

theorem alookup_eq_none {γ : Type} (k : Nat) (l : List (Nat × γ))
    (h : ∀ p ∈ l, p.1 ≠ k) : alookup k l = none := by
  induction l with
  | nil => rfl
  | cons p ps ih =>
      have hp : p.1 ≠ k := h p (List.mem_cons_self _ _)
      simp only [alookup, hp, if_false]
      exact ih fun q hq => h q (List.mem_cons_of_mem _ hq)

theorem alookup_isSome_mem {γ : Type} (k : Nat) (l : List (Nat × γ))
    (h : (alookup k l).isSome = true) : ∃ p ∈ l, p.1 = k := by
  cases hv : alookup k l with
  | none => rw [hv] at h; simp at h
  | some v => exact ⟨(k, v), alookup_mem k v l hv, rfl⟩

theorem alookup_setAssoc_self {γ : Type} (k : Nat) (v : γ) (l : List (Nat × γ))
    (h : (alookup k l).isSome = true) : alookup k (setAssoc k v l) = some v := by
  induction l with
  | nil => simp [alookup] at h
  | cons p ps ih =>
      by_cases hp : p.1 = k
      · simp [setAssoc, alookup, hp]
      · simp only [alookup, hp, if_false] at h
        simp only [setAssoc, hp, if_false, alookup]
        exact ih h

theorem alookup_setAssoc_ne {γ : Type} (k k2 : Nat) (v : γ) (l : List (Nat × γ))
    (h : k2 ≠ k) : alookup k2 (setAssoc k v l) = alookup k2 l := by
  have hkk : ¬ (k = k2) := fun hc => h hc.symm
  induction l with
  | nil => rfl
  | cons p ps ih =>
      by_cases hp : p.1 = k
      · simp [setAssoc, alookup, hp, hkk, ih]
      · simp [setAssoc, alookup, hp, ih]

theorem alookup_setAssoc_isSome {γ : Type} (k k2 : Nat) (v : γ) (l : List (Nat × γ))
    (h : (alookup k2 l).isSome = true) :
    (alookup k2 (setAssoc k v l)).isSome = true := by
  by_cases hk : k2 = k
  · rw [hk, alookup_setAssoc_self k v l (hk ▸ h)]
    rfl
  · rw [alookup_setAssoc_ne k k2 v l hk]
    exact h

theorem mem_setAssoc {γ : Type} (k : Nat) (v : γ) (l : List (Nat × γ)) (p : Nat × γ)
    (h : p ∈ setAssoc k v l) : ∃ q ∈ l, q.1 = p.1 := by
  induction l with
  | nil => simp [setAssoc] at h
  | cons q qs ih =>
      by_cases hq : q.1 = k <;> simp only [setAssoc, hq, if_true, if_false] at h
      · rcases List.mem_cons.mp h with h | h
        · exact ⟨q, List.mem_cons_self _ _, by simp [h, hq]⟩
        · rcases ih h with ⟨r, hr, hr2⟩
          exact ⟨r, List.mem_cons_of_mem _ hr, hr2⟩
      · rcases List.mem_cons.mp h with h | h
        · exact ⟨q, List.mem_cons_self _ _, by rw [h]⟩
        · rcases ih h with ⟨r, hr, hr2⟩
          exact ⟨r, List.mem_cons_of_mem _ hr, hr2⟩

theorem mem_insertSet (a b : Nat) (l : List Nat) :
    b ∈ insertSet a l ↔ b = a ∨ b ∈ l := by
  unfold insertSet
  split
  · constructor
    · exact fun h => Or.inr h
    · rintro (rfl | h)
      · assumption
      · exact h
  · exact List.mem_cons

theorem length_insertSet_le (a : Nat) (l : List Nat) :
    (insertSet a l).length ≤ l.length + 1 := by
  unfold insertSet
  split
  · omega
  · simp

theorem length_insertSet_of_not_mem (a : Nat) (l : List Nat) (h : a ∉ l) :
    (insertSet a l).length = l.length + 1 := by
  simp [insertSet, h]

theorem nodup_insertSet (a : Nat) (l : List Nat) (h : l.Nodup) :
    (insertSet a l).Nodup := by
  unfold insertSet
  split
  · exact h
  · exact List.nodup_cons.mpr ⟨by assumption, h⟩

theorem mem_eraseFirst (a b : Nat) (l : List Nat) (h : b ∈ eraseFirst a l) : b ∈ l := by
  induction l with
  | nil => simpa [eraseFirst] using h
  | cons c cs ih =>
      by_cases hc : c = a <;> simp only [eraseFirst, hc, if_true, if_false] at h
      · exact List.mem_cons_of_mem _ h
      · rcases List.mem_cons.mp h with h | h
        · exact h ▸ List.mem_cons_self _ _
        · exact List.mem_cons_of_mem _ (ih h)

theorem length_eraseFirst_le (a : Nat) (l : List Nat) :
    (eraseFirst a l).length ≤ l.length := by
  induction l with
  | nil => simp [eraseFirst]
  | cons c cs ih =>
      by_cases hc : c = a <;> simp only [eraseFirst, hc, if_true, if_false]
      · simp
      · simpa using Nat.succ_le_succ ih

theorem nodup_eraseFirst (a : Nat) (l : List Nat) (h : l.Nodup) :
    (eraseFirst a l).Nodup := by
  induction l with
  | nil => simpa [eraseFirst] using h
  | cons c cs ih =>
      rcases List.nodup_cons.mp h with ⟨hc1, hc2⟩
      by_cases hc : c = a <;> simp only [eraseFirst, hc, if_true, if_false]
      · exact hc2
      · exact List.nodup_cons.mpr ⟨fun hm => hc1 (mem_eraseFirst a c cs hm), ih hc2⟩

theorem not_mem_eraseFirst (a : Nat) (l : List Nat) (h : l.Nodup) :
    a ∉ eraseFirst a l := by
  induction l with
  | nil => simp [eraseFirst]
  | cons c cs ih =>
      rcases List.nodup_cons.mp h with ⟨hc1, hc2⟩
      by_cases hc : c = a <;> simp only [eraseFirst, hc, if_true, if_false]
      · exact hc ▸ hc1
      · intro hm
        rcases List.mem_cons.mp hm with hm | hm
        · exact hc hm.symm
        · exact ih hc2 hm

theorem mem_spliceOut {γ : Type} (i : Nat) (l : List γ) (b : γ)
    (h : b ∈ spliceOut i l) : b ∈ l := by
  induction l generalizing i with
  | nil => simpa [spliceOut] using h
  | cons c cs ih =>
      cases i with
      | zero => exact List.mem_cons_of_mem _ h
      | succ n =>
          rcases List.mem_cons.mp h with h | h
          · exact h ▸ List.mem_cons_self _ _
          · exact List.mem_cons_of_mem _ (ih n h)

theorem map_spliceOut {γ δ : Type} (f : γ → δ) (i : Nat) (l : List γ) :
    (spliceOut i l).map f = spliceOut i (l.map f) := by
  induction l generalizing i with
  | nil => simp [spliceOut]
  | cons c cs ih =>
      cases i with
      | zero => simp [spliceOut]
      | succ n => simp [spliceOut, ih n]

theorem nodup_spliceOut {γ : Type} (i : Nat) (l : List γ) (h : l.Nodup) :
    (spliceOut i l).Nodup := by
  induction l generalizing i with
  | nil => simpa [spliceOut] using h
  | cons c cs ih =>
      rcases List.nodup_cons.mp h with ⟨hc1, hc2⟩
      cases i with
      | zero => exact hc2
      | succ n =>
          exact List.nodup_cons.mpr
            ⟨fun hm => hc1 (mem_spliceOut n cs c hm), ih n hc2⟩

theorem findJobIdx_eq_none {α : Type} (t : Nat) (l : List (Job α))
    (h : ∀ j ∈ l, j.id ≠ t) : findJobIdx t l = none := by
  induction l with
  | nil => rfl
  | cons j js ih =>
      have hj : j.id ≠ t := h j (List.mem_cons_self _ _)
      simp only [findJobIdx, hj, if_false]
      rw [ih fun j2 hj2 => h j2 (List.mem_cons_of_mem _ hj2)]
      rfl

theorem findJob_eq_none {α : Type} (t : Nat) (l : List (Job α))
    (h : ∀ j ∈ l, j.id ≠ t) : findJob t l = none := by
  induction l with
  | nil => rfl
  | cons j js ih =>
      have hj : j.id ≠ t := h j (List.mem_cons_self _ _)
      simp only [findJob, hj, if_false]
      exact ih fun j2 hj2 => h j2 (List.mem_cons_of_mem _ hj2)

theorem findJobIdx_isSome_of_mem {α : Type} (l : List (Job α)) (j : Job α)
    (h : j ∈ l) : (findJobIdx j.id l).isSome = true := by
  induction l with
  | nil => simp at h
  | cons c cs ih =>
      by_cases hc : c.id = j.id
      · simp [findJobIdx, hc]
      · have hmem : j ∈ cs := by
          rcases List.mem_cons.mp h with h1 | h1
          · exact absurd (congrArg Job.id h1).symm hc
          · exact h1
        have hsome := ih hmem
        simp only [findJobIdx, hc, if_false]
        cases hv : findJobIdx j.id cs with
        | none => rw [hv] at hsome; simp at hsome
        | some n => simp

theorem spliceOut_findJobIdx {α : Type} (t : Nat) (l : List (Job α)) (i : Nat)
    (hnd : (l.map Job.id).Nodup) (h : findJobIdx t l = some i) :
    ∀ j ∈ spliceOut i l, j.id ≠ t := by
  induction l generalizing i with
  | nil => simp [findJobIdx] at h
  | cons c cs ih =>
      have hnd2 := hnd
      simp only [List.map_cons, List.nodup_cons] at hnd2
      by_cases hc : c.id = t
      · simp only [findJobIdx, hc, if_true] at h
        cases h
        intro j hj hjt
        simp only [spliceOut] at hj
        have hm : j.id ∈ cs.map Job.id := List.mem_map_of_mem Job.id hj
        rw [hjt, ← hc] at hm
        exact hnd2.1 hm
      · simp only [findJobIdx, hc, if_false] at h
        cases hv : findJobIdx t cs with
        | none => rw [hv] at h; simp at h
        | some n =>
            rw [hv] at h
            simp at h
            cases h
            intro j hj hjt
            simp only [spliceOut] at hj
            rcases List.mem_cons.mp hj with hj | hj
            · exact hc (hj ▸ hjt)
            · exact ih n hnd2.2 hv j hj hjt

/-! Field-effect lemmas for each atomic operation. -/

@[simp] theorem emitEventFn_events {α β : Type} (e : Event α β) (st : QState α β) :
    (emitEventFn e st).events = st.events ++ [(st.now, e)] := rfl

@[simp] theorem emitEventFn_queue {α β : Type} (e : Event α β) (st : QState α β) :
    (emitEventFn e st).queue = st.queue := rfl

@[simp] theorem emitEventFn_running {α β : Type} (e : Event α β) (st : QState α β) :
    (emitEventFn e st).running = st.running := rfl

@[simp] theorem emitEventFn_settlements {α β : Type} (e : Event α β) (st : QState α β) :
    (emitEventFn e st).settlements = st.settlements := rfl

@[simp] theorem emitEventFn_controllers {α β : Type} (e : Event α β) (st : QState α β) :
    (emitEventFn e st).controllers = st.controllers := rfl

@[simp] theorem emitEventFn_jobCounter {α β : Type} (e : Event α β) (st : QState α β) :
    (emitEventFn e st).jobCounter = st.jobCounter := rfl

@[simp] theorem emitEventFn_maxConcurrent {α β : Type} (e : Event α β) (st : QState α β) :
    (emitEventFn e st).maxConcurrent = st.maxConcurrent := rfl

@[simp] theorem emitEventFn_now {α β : Type} (e : Event α β) (st : QState α β) :
    (emitEventFn e st).now = st.now := rfl

@[simp] theorem triggerAbort_controllers {α β : Type} (id : Nat) (st : QState α β) :
    (triggerAbort id st).controllers = setAssoc id true st.controllers := rfl

@[simp] theorem triggerAbort_queue {α β : Type} (id : Nat) (st : QState α β) :
    (triggerAbort id st).queue = st.queue := rfl

@[simp] theorem triggerAbort_running {α β : Type} (id : Nat) (st : QState α β) :
    (triggerAbort id st).running = st.running := rfl

@[simp] theorem triggerAbort_settlements {α β : Type} (id : Nat) (st : QState α β) :
    (triggerAbort id st).settlements = st.settlements := rfl

@[simp] theorem triggerAbort_events {α β : Type} (id : Nat) (st : QState α β) :
    (triggerAbort id st).events = st.events := rfl

@[simp] theorem triggerAbort_jobCounter {α β : Type} (id : Nat) (st : QState α β) :
    (triggerAbort id st).jobCounter = st.jobCounter := rfl

@[simp] theorem triggerAbort_maxConcurrent {α β : Type} (id : Nat) (st : QState α β) :
    (triggerAbort id st).maxConcurrent = st.maxConcurrent := rfl

@[simp] theorem triggerAbort_now {α β : Type} (id : Nat) (st : QState α β) :
    (triggerAbort id st).now = st.now := rfl

@[simp] theorem settleOnce_queue {α β : Type} (id : Nat) (v : Settlement β) (st : QState α β) :
    (settleOnce id v st).queue = st.queue := by
  unfold settleOnce
  cases alookup id st.settlements <;> rfl

@[simp] theorem settleOnce_running {α β : Type} (id : Nat) (v : Settlement β) (st : QState α β) :
    (settleOnce id v st).running = st.running := by
  unfold settleOnce
  cases alookup id st.settlements <;> rfl

@[simp] theorem settleOnce_controllers {α β : Type} (id : Nat) (v : Settlement β)
    (st : QState α β) : (settleOnce id v st).controllers = st.controllers := by
  unfold settleOnce
  cases alookup id st.settlements <;> rfl

@[simp] theorem settleOnce_events {α β : Type} (id : Nat) (v : Settlement β) (st : QState α β) :
    (settleOnce id v st).events = st.events := by
  unfold settleOnce
  cases alookup id st.settlements <;> rfl

@[simp] theorem settleOnce_jobCounter {α β : Type} (id : Nat) (v : Settlement β)
    (st : QState α β) : (settleOnce id v st).jobCounter = st.jobCounter := by
  unfold settleOnce
  cases alookup id st.settlements <;> rfl

@[simp] theorem settleOnce_maxConcurrent {α β : Type} (id : Nat) (v : Settlement β)
    (st : QState α β) : (settleOnce id v st).maxConcurrent = st.maxConcurrent := by
  unfold settleOnce
  cases alookup id st.settlements <;> rfl

@[simp] theorem settleOnce_now {α β : Type} (id : Nat) (v : Settlement β) (st : QState α β) :
    (settleOnce id v st).now = st.now := by
  unfold settleOnce
  cases alookup id st.settlements <;> rfl

theorem settleOnce_lookup_self {α β : Type} (id : Nat) (v : Settlement β) (st : QState α β)
    (h : alookup id st.settlements = none) :
    alookup id (settleOnce id v st).settlements = some v := by
  unfold settleOnce
  rw [h]
  show alookup id (st.settlements ++ [(id, v)]) = some v
  rw [alookup_append_right id st.settlements [(id, v)] h]
  simp [alookup]

theorem settleOnce_lookup_ne {α β : Type} (id k : Nat) (v : Settlement β) (st : QState α β)
    (h : k ≠ id) : alookup k (settleOnce id v st).settlements = alookup k st.settlements := by
  unfold settleOnce
  cases hv : alookup id st.settlements with
  | some w => rfl
  | none =>
      show alookup k (st.settlements ++ [(id, v)]) = alookup k st.settlements
      cases hk : alookup k st.settlements with
      | some w => exact alookup_append_left k w st.settlements [(id, v)] hk
      | none =>
          rw [alookup_append_right k st.settlements [(id, v)] hk]
          have hik : ¬ (id = k) := fun hc => h hc.symm
          simp [alookup, hik]

theorem mem_settleOnce_settlements {α β : Type} (id : Nat) (v : Settlement β) (st : QState α β)
    (p : Nat × Settlement β) (h : p ∈ (settleOnce id v st).settlements) :
    p ∈ st.settlements ∨ p = (id, v) := by
  revert h
  unfold settleOnce
  cases alookup id st.settlements with
  | some w => exact fun h => Or.inl h
  | none =>
      intro h
      rcases List.mem_append.mp h with h | h
      · exact Or.inl h
      · exact Or.inr (by simpa using h)

@[simp] theorem addJobFn_queue {α β : Type} (d : α) (st : QState α β) :
    (addJobFn d st).2.queue = st.queue ++ [⟨st.jobCounter + 1, d⟩] := by
  simp only [addJobFn]
  split <;> rfl

@[simp] theorem addJobFn_running {α β : Type} (d : α) (st : QState α β) :
    (addJobFn d st).2.running = st.running := by
  simp only [addJobFn]
  split <;> rfl

@[simp] theorem addJobFn_jobCounter {α β : Type} (d : α) (st : QState α β) :
    (addJobFn d st).2.jobCounter = st.jobCounter + 1 := by
  simp only [addJobFn]
  split <;> rfl

@[simp] theorem addJobFn_controllers {α β : Type} (d : α) (st : QState α β) :
    (addJobFn d st).2.controllers = st.controllers ++ [(st.jobCounter + 1, false)] := by
  simp only [addJobFn]
  split <;> rfl

@[simp] theorem addJobFn_settlements {α β : Type} (d : α) (st : QState α β) :
    (addJobFn d st).2.settlements = st.settlements := by
  simp only [addJobFn]
  split <;> rfl

@[simp] theorem addJobFn_events {α β : Type} (d : α) (st : QState α β) :
    (addJobFn d st).2.events = st.events := by
  simp only [addJobFn]
  split <;> rfl

@[simp] theorem addJobFn_maxConcurrent {α β : Type} (d : α) (st : QState α β) :
    (addJobFn d st).2.maxConcurrent = st.maxConcurrent := by
  simp only [addJobFn]
  split <;> rfl

@[simp] theorem addJobFn_now {α β : Type} (d : α) (st : QState α β) :
    (addJobFn d st).2.now = st.now := by
  simp only [addJobFn]
  split <;> rfl

@[simp] theorem dispatchOne_settlements {α β : Type} (st : QState α β) :
    (dispatchOne st).settlements = st.settlements := by
  unfold dispatchOne
  cases st.queue <;> rfl

@[simp] theorem dispatchOne_controllers {α β : Type} (st : QState α β) :
    (dispatchOne st).controllers = st.controllers := by
  unfold dispatchOne
  cases st.queue <;> rfl

@[simp] theorem dispatchOne_jobCounter {α β : Type} (st : QState α β) :
    (dispatchOne st).jobCounter = st.jobCounter := by
  unfold dispatchOne
  cases st.queue <;> rfl

@[simp] theorem dispatchOne_maxConcurrent {α β : Type} (st : QState α β) :
    (dispatchOne st).maxConcurrent = st.maxConcurrent := by
  unfold dispatchOne
  cases st.queue <;> rfl

@[simp] theorem dispatchOne_now {α β : Type} (st : QState α β) :
    (dispatchOne st).now = st.now := by
  unfold dispatchOne
  cases st.queue <;> rfl

theorem dispatchK_settlements {α β : Type} (k : Nat) (st : QState α β) :
    (dispatchK k st).settlements = st.settlements := by
  induction k generalizing st with
  | zero => rfl
  | succ n ih => simp [dispatchK, ih]

theorem dispatchK_controllers {α β : Type} (k : Nat) (st : QState α β) :
    (dispatchK k st).controllers = st.controllers := by
  induction k generalizing st with
  | zero => rfl
  | succ n ih => simp [dispatchK, ih]

theorem dispatchK_jobCounter {α β : Type} (k : Nat) (st : QState α β) :
    (dispatchK k st).jobCounter = st.jobCounter := by
  induction k generalizing st with
  | zero => rfl
  | succ n ih => simp [dispatchK, ih]

theorem dispatchK_maxConcurrent {α β : Type} (k : Nat) (st : QState α β) :
    (dispatchK k st).maxConcurrent = st.maxConcurrent := by
  induction k generalizing st with
  | zero => rfl
  | succ n ih => simp [dispatchK, ih]

theorem dispatchK_now {α β : Type} (k : Nat) (st : QState α β) :
    (dispatchK k st).now = st.now := by
  induction k generalizing st with
  | zero => rfl
  | succ n ih => simp [dispatchK, ih]

theorem dispatchK_queue {α β : Type} (k : Nat) (st : QState α β) :
    (dispatchK k st).queue = st.queue.drop k := by
  induction k generalizing st with
  | zero => rfl
  | succ n ih =>
      cases hq : st.queue with
      | nil =>
          have h1 : dispatchOne st = st := by simp [dispatchOne, hq]
          simp [dispatchK, h1, ih, hq]
      | cons j rest =>
          have h1 : (dispatchOne st).queue = rest := by simp [dispatchOne, hq]
          simp [dispatchK, ih, h1, hq]

theorem dispatchK_events {α β : Type} (k : Nat) (st : QState α β) :
    (dispatchK k st).events =
      st.events ++ (st.queue.take k).map (fun j => (st.now, Event.jobStart j.id j.data)) := by
  induction k generalizing st with
  | zero => simp [dispatchK]
  | succ n ih =>
      cases hq : st.queue with
      | nil =>
          have h1 : dispatchOne st = st := by simp [dispatchOne, hq]
          simp [dispatchK, h1, ih, hq]
      | cons j rest =>
          have h1 : dispatchOne st = emitEventFn (Event.jobStart j.id j.data)
              { st with queue := rest, running := insertSet j.id st.running } := by
            simp [dispatchOne, hq]
          rw [dispatchK, ih, h1]
          simp [emitEventFn, hq]

theorem dispatchK_running_mem {α β : Type} (k : Nat) (st : QState α β) (i : Nat)
    (h : i ∈ (dispatchK k st).running) : i ∈ st.running ∨ i ∈ st.queue.map Job.id := by
  induction k generalizing st with
  | zero => exact Or.inl h
  | succ n ih =>
      cases hq : st.queue with
      | nil =>
          have h1 : dispatchOne st = st := by simp [dispatchOne, hq]
          rw [dispatchK, h1] at h
          rcases ih st h with h2 | h2
          · exact Or.inl h2
          · rw [hq] at h2
            simp at h2
      | cons j rest =>
          rw [dispatchK] at h
          rcases ih (dispatchOne st) h with h2 | h2
          · have : (dispatchOne st).running = insertSet j.id st.running := by
              simp [dispatchOne, hq]
            rw [this] at h2
            rcases (mem_insertSet j.id i st.running).mp h2 with h3 | h3
            · exact Or.inr (by simp [hq, h3])
            · exact Or.inl h3
          · have : (dispatchOne st).queue = rest := by simp [dispatchOne, hq]
            rw [this] at h2
            exact Or.inr (by simp [hq]; right; simpa using h2)

@[simp] theorem finishJobFn_queue {α β : Type} (id : Nat) (d : α) (out : Except Thrown β)
    (st : QState α β) : (finishJobFn id d out st).queue = st.queue := by
  simp [finishJobFn]

@[simp] theorem finishJobFn_running {α β : Type} (id : Nat) (d : α) (out : Except Thrown β)
    (st : QState α β) : (finishJobFn id d out st).running = eraseFirst id st.running := by
  simp [finishJobFn]

@[simp] theorem finishJobFn_events {α β : Type} (id : Nat) (d : α) (out : Except Thrown β)
    (st : QState α β) :
    (finishJobFn id d out st).events = st.events ++ [(st.now, eventOfOutcome id d out)] := by
  simp [finishJobFn]

@[simp] theorem finishJobFn_controllers {α β : Type} (id : Nat) (d : α) (out : Except Thrown β)
    (st : QState α β) : (finishJobFn id d out st).controllers = st.controllers := by
  simp [finishJobFn]

@[simp] theorem finishJobFn_jobCounter {α β : Type} (id : Nat) (d : α) (out : Except Thrown β)
    (st : QState α β) : (finishJobFn id d out st).jobCounter = st.jobCounter := by
  simp [finishJobFn]

@[simp] theorem finishJobFn_maxConcurrent {α β : Type} (id : Nat) (d : α) (out : Except Thrown β)
    (st : QState α β) : (finishJobFn id d out st).maxConcurrent = st.maxConcurrent := by
  simp [finishJobFn]

theorem finishJobFn_settlements {α β : Type} (id : Nat) (d : α) (out : Except Thrown β)
    (st : QState α β) :
    (finishJobFn id d out st).settlements =
      (settleOnce id (settlementOfOutcome out) st).settlements := by
  cases hv : alookup id st.settlements with
  | some w => simp [finishJobFn, settleOnce, hv]
  | none => simp [finishJobFn, settleOnce, hv]

theorem abortJobFn_events {α β : Type} (id : Nat) (st : QState α β) :
    (abortJobFn id st).2.events = st.events := by
  unfold abortJobFn
  cases findJobIdx id st.queue with
  | some i => simp
  | none =>
      by_cases hr : id ∈ st.running
      · simp only [hr, if_true]
        cases findJob id st.queue <;> simp
      · simp [hr]

theorem abortJobFn_running {α β : Type} (id : Nat) (st : QState α β) :
    (abortJobFn id st).2.running = st.running := by
  unfold abortJobFn
  cases findJobIdx id st.queue with
  | some i => simp
  | none =>
      by_cases hr : id ∈ st.running
      · simp only [hr, if_true]
        cases findJob id st.queue <;> simp
      · simp [hr]

theorem abortJobFn_jobCounter {α β : Type} (id : Nat) (st : QState α β) :
    (abortJobFn id st).2.jobCounter = st.jobCounter := by
  unfold abortJobFn
  cases findJobIdx id st.queue with
  | some i => simp
  | none =>
      by_cases hr : id ∈ st.running
      · simp only [hr, if_true]
        cases findJob id st.queue <;> simp
      · simp [hr]

theorem abortJobFn_maxConcurrent {α β : Type} (id : Nat) (st : QState α β) :
    (abortJobFn id st).2.maxConcurrent = st.maxConcurrent := by
  unfold abortJobFn
  cases findJobIdx id st.queue with
  | some i => simp
  | none =>
      by_cases hr : id ∈ st.running
      · simp only [hr, if_true]
        cases findJob id st.queue <;> simp
      · simp [hr]

@[simp] theorem disposeSettle_queue {α β : Type} (s : QState α β) (j : Job α) :
    (disposeSettle s j).queue = s.queue := by
  simp [disposeSettle]

@[simp] theorem disposeSettle_running {α β : Type} (s : QState α β) (j : Job α) :
    (disposeSettle s j).running = s.running := by
  simp [disposeSettle]

@[simp] theorem disposeSettle_events {α β : Type} (s : QState α β) (j : Job α) :
    (disposeSettle s j).events = s.events := by
  simp [disposeSettle]

@[simp] theorem disposeSettle_jobCounter {α β : Type} (s : QState α β) (j : Job α) :
    (disposeSettle s j).jobCounter = s.jobCounter := by
  simp [disposeSettle]

@[simp] theorem disposeSettle_maxConcurrent {α β : Type} (s : QState α β) (j : Job α) :
    (disposeSettle s j).maxConcurrent = s.maxConcurrent := by
  simp [disposeSettle]

theorem foldDispose_queue {α β : Type} (l : List (Job α)) (s : QState α β) :
    (l.foldl disposeSettle s).queue = s.queue := by
  induction l generalizing s with
  | nil => rfl
  | cons j js ih => simp [List.foldl_cons, ih]

theorem foldDispose_running {α β : Type} (l : List (Job α)) (s : QState α β) :
    (l.foldl disposeSettle s).running = s.running := by
  induction l generalizing s with
  | nil => rfl
  | cons j js ih => simp [List.foldl_cons, ih]

theorem foldDispose_events {α β : Type} (l : List (Job α)) (s : QState α β) :
    (l.foldl disposeSettle s).events = s.events := by
  induction l generalizing s with
  | nil => rfl
  | cons j js ih => simp [List.foldl_cons, ih]

theorem foldDispose_jobCounter {α β : Type} (l : List (Job α)) (s : QState α β) :
    (l.foldl disposeSettle s).jobCounter = s.jobCounter := by
  induction l generalizing s with
  | nil => rfl
  | cons j js ih => simp [List.foldl_cons, ih]

theorem foldDispose_maxConcurrent {α β : Type} (l : List (Job α)) (s : QState α β) :
    (l.foldl disposeSettle s).maxConcurrent = s.maxConcurrent := by
  induction l generalizing s with
  | nil => rfl
  | cons j js ih => simp [List.foldl_cons, ih]

@[simp] theorem disposeFn_queue {α β : Type} (st : QState α β) : (disposeFn st).queue = [] := rfl

@[simp] theorem disposeFn_running {α β : Type} (st : QState α β) :
    (disposeFn st).running = st.running := by
  unfold disposeFn
  simp [foldDispose_running]

@[simp] theorem disposeFn_events {α β : Type} (st : QState α β) :
    (disposeFn st).events = st.events := by
  unfold disposeFn
  simp [foldDispose_events]

@[simp] theorem disposeFn_jobCounter {α β : Type} (st : QState α β) :
    (disposeFn st).jobCounter = st.jobCounter := by
  unfold disposeFn
  simp [foldDispose_jobCounter]

@[simp] theorem disposeFn_maxConcurrent {α β : Type} (st : QState α β) :
    (disposeFn st).maxConcurrent = st.maxConcurrent := by
  unfold disposeFn
  simp [foldDispose_maxConcurrent]

@[simp] theorem disposeFn_processingActive {α β : Type} (st : QState α β) :
    (disposeFn st).processingActive = false := by
  unfold disposeFn
  have h : ∀ (l : List (Job α)) (s : QState α β),
      (l.foldl disposeSettle s).processingActive = s.processingActive := by
    intro l
    induction l with
    | nil => intro s; rfl
    | cons j js ih =>
        intro s
        rw [List.foldl_cons, ih]
        simp [disposeSettle, settleOnce, triggerAbort]
        cases alookup j.id s.settlements <;> rfl
  simp [h]

@[simp] theorem addListenerFn_fields {α β : Type} (k : EventKind) (lid : Nat)
    (st : QState α β) : (addListenerFn k lid st).queue = st.queue ∧
      (addListenerFn k lid st).running = st.running ∧
      (addListenerFn k lid st).settlements = st.settlements ∧
      (addListenerFn k lid st).controllers = st.controllers ∧
      (addListenerFn k lid st).events = st.events ∧
      (addListenerFn k lid st).jobCounter = st.jobCounter ∧
      (addListenerFn k lid st).maxConcurrent = st.maxConcurrent := by
  exact ⟨rfl, rfl, rfl, rfl, rfl, rfl, rfl⟩

@[simp] theorem removeListenerFn_fields {α β : Type} (k : EventKind) (lid : Nat)
    (st : QState α β) : (removeListenerFn k lid st).queue = st.queue ∧
      (removeListenerFn k lid st).running = st.running ∧
      (removeListenerFn k lid st).settlements = st.settlements ∧
      (removeListenerFn k lid st).controllers = st.controllers ∧
      (removeListenerFn k lid st).events = st.events ∧
      (removeListenerFn k lid st).jobCounter = st.jobCounter ∧
      (removeListenerFn k lid st).maxConcurrent = st.maxConcurrent := by
  exact ⟨rfl, rfl, rfl, rfl, rfl, rfl, rfl⟩

/-! Remaining helpers for the invariant proof. -/

theorem findJobIdx_some_mem {α : Type} (t : Nat) (l : List (Job α)) (i : Nat)
    (h : findJobIdx t l = some i) : t ∈ l.map Job.id := by
  induction l generalizing i with
  | nil => simp [findJobIdx] at h
  | cons c cs ih =>
      by_cases hc : c.id = t
      · simp [hc]
      · simp only [findJobIdx, hc, if_false] at h
        cases hv : findJobIdx t cs with
        | none => rw [hv] at h; simp at h
        | some n => simp [List.map_cons]; right; simpa using ih n hv

theorem startId?_eventOfOutcome {α β : Type} (id : Nat) (d : α) (out : Except Thrown β) :
    startId? (eventOfOutcome id d out) = none := by
  cases out <;> rfl

theorem foldDispose_settlements_mem {α β : Type} (l : List (Job α)) (s : QState α β)
    (p : Nat × Settlement β) (h : p ∈ (l.foldl disposeSettle s).settlements) :
    p ∈ s.settlements ∨ p.1 ∈ l.map Job.id := by
  induction l generalizing s with
  | nil => exact Or.inl h
  | cons j js ih =>
      rw [List.foldl_cons] at h
      rcases ih (disposeSettle s j) h with h2 | h2
      · unfold disposeSettle at h2
        rcases mem_settleOnce_settlements _ _ _ _ h2 with h3 | h3
        · exact Or.inl (by simpa using h3)
        · exact Or.inr (by simp [h3])
      · exact Or.inr (by simp [h2])

theorem foldDispose_controllers_mem {α β : Type} (l : List (Job α)) (s : QState α β)
    (p : Nat × Bool) (h : p ∈ (l.foldl disposeSettle s).controllers) :
    ∃ q ∈ s.controllers, q.1 = p.1 := by
  induction l generalizing s with
  | nil => exact ⟨p, h, rfl⟩
  | cons j js ih =>
      rw [List.foldl_cons] at h
      rcases ih (disposeSettle s j) h with ⟨q, hq, hq2⟩
      have hq3 : q ∈ setAssoc j.id true s.controllers := by
        simpa [disposeSettle] using hq
      rcases mem_setAssoc _ _ _ _ hq3 with ⟨r, hr, hr2⟩
      exact ⟨r, hr, by rw [hr2, hq2]⟩

/-! Preservation of the invariants by each atomic segment. -/

theorem wf_init (α β : Type) (m i : Nat) : WF (initState α β m i) := by
  constructor <;> simp [initState]

theorem wf_addJob {α β : Type} (d : α) (st : QState α β) (h : WF st) :
    WF (addJobFn d st).2 := by
  obtain ⟨h1, h2, h3, h4, h5, h6, h7, h8, h9, h10, h11, h12, h13⟩ := h
  have hfresh : st.jobCounter + 1 ∉ st.queue.map Job.id := fun hm => by
    have := h5 _ hm; omega
  constructor
  · simp [h1]
  · simp only [addJobFn_queue, List.map_append, List.map_cons, List.map_nil]
    refine List.Nodup.append h2 (List.nodup_singleton _) ?_
    intro x hx hx2
    simp only [List.mem_singleton] at hx2
    subst hx2
    exact hfresh hx
  · simp [h3]
  · intro id hm
    simp only [addJobFn_queue, addJobFn_running, List.map_append, List.map_cons,
      List.map_nil, List.mem_append, List.mem_singleton] at hm ⊢
    rcases hm with hm | hm
    · exact h4 id hm
    · subst hm
      intro hr
      have := h6 _ hr
      omega
  · intro id hm
    simp only [addJobFn_queue, addJobFn_jobCounter, List.map_append, List.map_cons,
      List.map_nil, List.mem_append, List.mem_singleton] at hm ⊢
    rcases hm with hm | hm
    · have := h5 _ hm; omega
    · omega
  · intro id hr
    simp only [addJobFn_running, addJobFn_jobCounter] at hr ⊢
    have := h6 _ hr
    omega
  · intro p hp
    simp only [addJobFn_settlements, addJobFn_jobCounter] at hp ⊢
    have := h7 _ hp
    omega
  · intro p hp
    simp only [addJobFn_controllers, addJobFn_jobCounter, List.mem_append,
      List.mem_singleton] at hp ⊢
    rcases hp with hp | hp
    · have := h8 _ hp; omega
    · subst hp; simp
  · intro p hp
    simp only [addJobFn_settlements] at hp
    simp only [addJobFn_queue, List.map_append, List.map_cons, List.map_nil,
      List.mem_append, List.mem_singleton]
    intro hm
    rcases hm with hm | hm
    · exact h9 _ hp hm
    · have := h7 _ hp
      omega
  · intro p hp
    simp only [addJobFn_settlements, addJobFn_running] at hp ⊢
    exact h10 _ hp
  · intro id hm
    simp only [addJobFn_queue, addJobFn_controllers, List.map_append, List.map_cons,
      List.map_nil, List.mem_append, List.mem_singleton] at hm ⊢
    rcases hm with hm | hm
    · have hs := h11 _ hm
      cases hv : alookup id st.controllers with
      | none => rw [hv] at hs; simp at hs
      | some b => rw [alookup_append_left id b _ _ hv]; rfl
    · subst hm
      have hnone : alookup (st.jobCounter + 1) st.controllers = none :=
        alookup_eq_none _ _ fun p hp => by have := h8 _ hp; omega
      rw [alookup_append_right _ _ _ hnone]
      simp [alookup]
  · intro te hte i hstart
    simp only [addJobFn_events] at hte
    simp only [addJobFn_jobCounter]
    have := h12 te hte i hstart
    omega
  · intro te hte j hj
    simp only [addJobFn_events] at hte
    simp only [addJobFn_queue, List.mem_append, List.mem_singleton] at hj
    rcases hj with hj | hj
    · exact h13 te hte j hj
    · subst hj
      intro hstart
      have h14 := h12 te hte _ hstart
      simp only [show (⟨st.jobCounter + 1, d⟩ : Job α).id = st.jobCounter + 1 from rfl] at h14
      omega

theorem wf_abortJob {α β : Type} (id : Nat) (st : QState α β) (h : WF st) :
    WF (abortJobFn id st).2 := by
  obtain ⟨h1, h2, h3, h4, h5, h6, h7, h8, h9, h10, h11, h12, h13⟩ := h
  unfold abortJobFn
  cases hidx : findJobIdx id st.queue with
  | some i =>
      have hmem : id ∈ st.queue.map Job.id := findJobIdx_some_mem id st.queue i hidx
      have hspl : ∀ j ∈ spliceOut i st.queue, j.id ≠ id :=
        spliceOut_findJobIdx id st.queue i h2 hidx
      have hsettle : ∀ p, p ∈ (settleOnce id
            (Settlement.rejected (Thrown.err ⟨"Job " ++ mkJobId id ++ " aborted"⟩))
            (triggerAbort id st)).settlements →
          p ∈ st.settlements ∨
            p = (id, Settlement.rejected (Thrown.err ⟨"Job " ++ mkJobId id ++ " aborted"⟩)) := by
        intro p hp
        rcases mem_settleOnce_settlements _ _ _ _ hp with h14 | h14
        · exact Or.inl (by simpa using h14)
        · exact Or.inr h14
      constructor
      · simp [h1]
      · show ((spliceOut i _).map Job.id).Nodup
        simp only [settleOnce_queue, triggerAbort_queue]
        rw [map_spliceOut]
        exact nodup_spliceOut _ _ h2
      · simp [h3]
      · intro id2 hm
        simp only [settleOnce_queue, triggerAbort_queue, settleOnce_running,
          triggerAbort_running, List.mem_map] at hm ⊢
        rcases hm with ⟨j2, hj2, hj2id⟩
        exact hj2id ▸ h4 j2.id (List.mem_map_of_mem Job.id (mem_spliceOut _ _ _ hj2))
      · intro id2 hm
        simp only [settleOnce_queue, triggerAbort_queue, settleOnce_jobCounter,
          triggerAbort_jobCounter, List.mem_map] at hm ⊢
        rcases hm with ⟨j2, hj2, hj2id⟩
        exact hj2id ▸ h5 j2.id (List.mem_map_of_mem Job.id (mem_spliceOut _ _ _ hj2))
      · intro id2 hm
        simp only [settleOnce_running, triggerAbort_running, settleOnce_jobCounter,
          triggerAbort_jobCounter] at hm ⊢
        exact h6 id2 hm
      · intro p hp
        simp only [settleOnce_jobCounter, triggerAbort_jobCounter]
        rcases hsettle p hp with h14 | h14
        · exact h7 _ h14
        · rw [h14]
          exact h5 _ hmem
      · intro p hp
        simp only [settleOnce_controllers, triggerAbort_controllers] at hp
        simp only [settleOnce_jobCounter, triggerAbort_jobCounter]
        rcases mem_setAssoc _ _ _ _ hp with ⟨q, hq, hq2⟩
        exact hq2 ▸ h8 _ hq
      · intro p hp
        simp only [settleOnce_queue, triggerAbort_queue, List.mem_map]
        rintro ⟨j2, hj2, hj2id⟩
        rcases hsettle p hp with h14 | h14
        · exact h9 _ h14 (hj2id ▸ List.mem_map_of_mem Job.id (mem_spliceOut _ _ _ hj2))
        · exact hspl j2 hj2 (by rw [hj2id, h14])
      · intro p hp
        simp only [settleOnce_running, triggerAbort_running]
        rcases hsettle p hp with h14 | h14
        · exact h10 _ h14
        · rw [h14]
          exact h4 _ hmem
      · intro id2 hm
        simp only [settleOnce_queue, triggerAbort_queue, settleOnce_controllers,
          triggerAbort_controllers, List.mem_map] at hm ⊢
        rcases hm with ⟨j2, hj2, hj2id⟩
        exact alookup_setAssoc_isSome _ _ _ _
          (hj2id ▸ h11 j2.id (List.mem_map_of_mem Job.id (mem_spliceOut _ _ _ hj2)))
      · intro te hte i2 hstart
        simp only [settleOnce_events, triggerAbort_events] at hte
        simp only [settleOnce_jobCounter, triggerAbort_jobCounter]
        exact h12 te hte i2 hstart
      · intro te hte j2 hj2
        simp only [settleOnce_events, triggerAbort_events] at hte
        simp only [settleOnce_queue, triggerAbort_queue] at hj2
        exact h13 te hte j2 (mem_spliceOut _ _ _ hj2)
  | none =>
      by_cases hr : id ∈ st.running
      · simp only [hr, if_true]
        cases hj : findJob id st.queue with
        | some j =>
            constructor
            · simp [h1]
            · simp [h2]
            · simp [h3]
            · simpa using h4
            · simpa using h5
            · simpa using h6
            · simpa using h7
            · intro p hp
              simp only [triggerAbort_controllers] at hp
              simp only [triggerAbort_jobCounter]
              rcases mem_setAssoc _ _ _ _ hp with ⟨q, hq, hq2⟩
              exact hq2 ▸ h8 _ hq
            · simpa using h9
            · simpa using h10
            · intro id2 hm
              simp only [triggerAbort_queue, triggerAbort_controllers] at hm ⊢
              exact alookup_setAssoc_isSome _ _ _ _ (h11 id2 hm)
            · simpa using h12
            · simpa using h13
        | none => exact ⟨h1, h2, h3, h4, h5, h6, h7, h8, h9, h10, h11, h12, h13⟩
      · simp only [hr, if_false]
        exact ⟨h1, h2, h3, h4, h5, h6, h7, h8, h9, h10, h11, h12, h13⟩

theorem wf_finish {α β : Type} (id : Nat) (d : α) (out : Except Thrown β) (st : QState α β)
    (hrun : id ∈ st.running) (h : WF st) : WF (finishJobFn id d out st) := by
  obtain ⟨h1, h2, h3, h4, h5, h6, h7, h8, h9, h10, h11, h12, h13⟩ := h
  have hidq : id ∉ st.queue.map Job.id := fun hm => h4 id hm hrun
  have hsettle : ∀ p, p ∈ (finishJobFn id d out st).settlements →
      p ∈ st.settlements ∨ p = (id, settlementOfOutcome out) := by
    intro p hp
    rw [finishJobFn_settlements] at hp
    exact mem_settleOnce_settlements _ _ _ _ hp
  constructor
  · simp only [finishJobFn_running, finishJobFn_maxConcurrent]
    exact le_trans (length_eraseFirst_le id st.running) h1
  · simpa using h2
  · simp only [finishJobFn_running]
    exact nodup_eraseFirst _ _ h3
  · intro id2 hm
    simp only [finishJobFn_queue, finishJobFn_running] at hm ⊢
    exact fun hm2 => h4 id2 hm (mem_eraseFirst _ _ _ hm2)
  · simpa using h5
  · intro id2 hm
    simp only [finishJobFn_running, finishJobFn_jobCounter] at hm ⊢
    exact h6 id2 (mem_eraseFirst _ _ _ hm)
  · intro p hp
    simp only [finishJobFn_jobCounter]
    rcases hsettle p hp with h14 | h14
    · exact h7 _ h14
    · rw [h14]
      exact h6 _ hrun
  · simpa using h8
  · intro p hp
    simp only [finishJobFn_queue]
    rcases hsettle p hp with h14 | h14
    · exact h9 _ h14
    · rw [h14]
      exact hidq
  · intro p hp
    simp only [finishJobFn_running]
    rcases hsettle p hp with h14 | h14
    · exact fun hm => h10 _ h14 (mem_eraseFirst _ _ _ hm)
    · rw [h14]
      exact not_mem_eraseFirst _ _ h3
  · intro id2 hm
    simp only [finishJobFn_queue, finishJobFn_controllers] at hm ⊢
    exact h11 id2 hm
  · intro te hte i2 hstart
    simp only [finishJobFn_events, List.mem_append, List.mem_singleton] at hte
    simp only [finishJobFn_jobCounter]
    rcases hte with hte | hte
    · exact h12 te hte i2 hstart
    · subst hte
      rw [show (st.now, eventOfOutcome id d out).2 = eventOfOutcome id d out from rfl,
        startId?_eventOfOutcome] at hstart
      cases hstart
  · intro te hte j2 hj2
    simp only [finishJobFn_events, List.mem_append, List.mem_singleton] at hte
    simp only [finishJobFn_queue] at hj2
    rcases hte with hte | hte
    · exact h13 te hte j2 hj2
    · subst hte
      rw [show (st.now, eventOfOutcome id d out).2 = eventOfOutcome id d out from rfl,
        startId?_eventOfOutcome]
      simp

theorem wf_dispatchK {α β : Type} (k : Nat) :
    ∀ st : QState α β, k ≤ batchSize st → WF st → WF (dispatchK k st) := by
  induction k with
  | zero => intro st _ h; exact h
  | succ n ih =>
      intro st hk h
      obtain ⟨h1, h2, h3, h4, h5, h6, h7, h8, h9, h10, h11, h12, h13⟩ := h
      cases hq : st.queue with
      | nil =>
          exfalso
          rw [batchSize, hq] at hk
          simp at hk
      | cons j rest =>
          rw [batchSize, hq] at hk
          rcases le_min_iff.mp hk with ⟨hc1, hc2⟩
          have hjidmem : j.id ∈ st.queue.map Job.id := by rw [hq]; simp
          have hjnotrun : j.id ∉ st.running := h4 _ hjidmem
          have hins : insertSet j.id st.running = j.id :: st.running := by
            simp [insertSet, hjnotrun]
          have h2c := h2
          rw [hq] at h2c
          simp only [List.map_cons, List.nodup_cons] at h2c
          have h1eq : dispatchOne st = emitEventFn (Event.jobStart j.id j.data)
              { st with queue := rest, running := insertSet j.id st.running } := by
            simp [dispatchOne, hq]
          have hwf1 : WF (dispatchOne st) := by
            rw [h1eq]
            constructor
            · simp only [emitEventFn_running, emitEventFn_maxConcurrent, hins]
              simp only [List.length_cons]
              omega
            · simpa using h2c.2
            · simp only [emitEventFn_running, hins]
              exact List.nodup_cons.mpr ⟨hjnotrun, h3⟩
            · intro id2 hm
              simp only [emitEventFn_queue, emitEventFn_running, hins] at hm ⊢
              intro hmem2
              rcases List.mem_cons.mp hmem2 with h14 | h14
              · exact h2c.1 (h14 ▸ hm)
              · exact h4 id2 (by rw [hq]; simp only [List.map_cons]; exact
                  List.mem_cons_of_mem _ hm) h14
            · intro id2 hm
              simp only [emitEventFn_queue, emitEventFn_jobCounter] at hm ⊢
              exact h5 id2 (by rw [hq]; simp only [List.map_cons]; exact
                List.mem_cons_of_mem _ hm)
            · intro id2 hm
              simp only [emitEventFn_running, emitEventFn_jobCounter, hins] at hm ⊢
              rcases List.mem_cons.mp hm with h14 | h14
              · exact h14 ▸ h5 _ hjidmem
              · exact h6 _ h14
            · simpa using h7
            · simpa using h8
            · intro p hp
              simp only [emitEventFn_settlements] at hp
              simp only [emitEventFn_queue]
              intro hm
              exact h9 p hp (by rw [hq]; simp only [List.map_cons]; exact
                List.mem_cons_of_mem _ hm)
            · intro p hp
              simp only [emitEventFn_settlements] at hp
              simp only [emitEventFn_running, hins]
              intro hm
              rcases List.mem_cons.mp hm with h14 | h14
              · exact h9 p hp (h14 ▸ hjidmem)
              · exact h10 p hp h14
            · intro id2 hm
              simp only [emitEventFn_queue, emitEventFn_controllers] at hm ⊢
              exact h11 id2 (by rw [hq]; simp only [List.map_cons]; exact
                List.mem_cons_of_mem _ hm)
            · intro te hte i2 hstart
              simp only [emitEventFn_events, List.mem_append, List.mem_singleton] at hte
              simp only [emitEventFn_jobCounter]
              rcases hte with hte | hte
              · exact h12 te hte i2 hstart
              · subst hte
                simp only [startId?] at hstart
                cases hstart
                exact h5 _ hjidmem
            · intro te hte j2 hj2
              simp only [emitEventFn_events, List.mem_append, List.mem_singleton] at hte
              simp only [emitEventFn_queue] at hj2
              rcases hte with hte | hte
              · exact h13 te hte j2 (by rw [hq]; exact List.mem_cons_of_mem _ hj2)
              · subst hte
                simp only [startId?]
                intro hcontra
                have heq := Option.some.inj hcontra
                have hinmap : j.id ∈ rest.map Job.id := by
                  rw [heq]
                  exact List.mem_map_of_mem Job.id hj2
                exact h2c.1 hinmap
          have hk1 : n ≤ batchSize (dispatchOne st) := by
            rw [batchSize]
            have e1 : (dispatchOne st).maxConcurrent = st.maxConcurrent := by simp
            have e2 : (dispatchOne st).running = j.id :: st.running := by
              rw [h1eq]; simp [hins]
            have e3 : (dispatchOne st).queue = rest := by rw [h1eq]; simp
            rw [e1, e2, e3]
            simp only [List.length_cons]
            simp only [List.length_cons] at hc2
            refine le_min_iff.mpr ⟨by omega, by omega⟩
          show WF (dispatchK n (dispatchOne st))
          exact ih (dispatchOne st) hk1 hwf1

theorem wf_emptyCheck {α β : Type} (st : QState α β) (hq : st.queue = [])
    (hr : st.running = []) (h : WF st) :
    WF { emitEventFn Event.queueEmpty st with processingActive := false } := by
  obtain ⟨h1, h2, h3, h4, h5, h6, h7, h8, h9, h10, h11, h12, h13⟩ := h
  constructor
  · simp [hr]
  · simp [hq]
  · simp [hr]
  · intro id hm
    simp [hq] at hm
  · intro id hm
    simp [hq] at hm
  · intro id hm
    simp [hr] at hm
  · intro p hp
    exact h7 p hp
  · intro p hp
    exact h8 p hp
  · intro p hp
    simp [hq]
  · intro p hp
    simp [hr]
  · intro id hm
    simp [hq] at hm
  · intro te hte i hstart
    simp only [emitEventFn_events, List.mem_append, List.mem_singleton] at hte
    rcases hte with hte | hte
    · exact h12 te hte i hstart
    · subst hte
      simp only [startId?] at hstart
      cases hstart
  · intro te hte j hj
    simp [hq] at hj

theorem disposeFn_settlements {α β : Type} (st : QState α β) :
    (disposeFn st).settlements =
      (st.queue.foldl disposeSettle { st with processingActive := false }).settlements := rfl

theorem disposeFn_controllers {α β : Type} (st : QState α β) :
    (disposeFn st).controllers =
      (st.queue.foldl disposeSettle { st with processingActive := false }).controllers := rfl

theorem wf_dispose {α β : Type} (st : QState α β) (h : WF st) : WF (disposeFn st) := by
  obtain ⟨h1, h2, h3, h4, h5, h6, h7, h8, h9, h10, h11, h12, h13⟩ := h
  have hsett : ∀ p ∈ (disposeFn st).settlements,
      p ∈ st.settlements ∨ p.1 ∈ st.queue.map Job.id := by
    intro p hp
    rw [disposeFn_settlements] at hp
    exact foldDispose_settlements_mem st.queue { st with processingActive := false } p hp
  have hctrl : ∀ p ∈ (disposeFn st).controllers, ∃ q ∈ st.controllers, q.1 = p.1 := by
    intro p hp
    rw [disposeFn_controllers] at hp
    exact foldDispose_controllers_mem st.queue { st with processingActive := false } p hp
  constructor
  · simp [h1]
  · simp
  · simp [h3]
  · intro id hm
    simp at hm
  · intro id hm
    simp at hm
  · intro id hm
    simp only [disposeFn_running, disposeFn_jobCounter] at hm ⊢
    exact h6 _ hm
  · intro p hp
    simp only [disposeFn_jobCounter]
    rcases hsett p hp with h14 | h14
    · exact h7 _ h14
    · exact h5 _ h14
  · intro p hp
    simp only [disposeFn_jobCounter]
    rcases hctrl p hp with ⟨q, hq, hq2⟩
    exact hq2 ▸ h8 _ hq
  · intro p hp
    simp
  · intro p hp
    simp only [disposeFn_running]
    rcases hsett p hp with h14 | h14
    · exact h10 _ h14
    · exact h4 _ h14
  · intro id hm
    simp at hm
  · intro te hte i hstart
    simp only [disposeFn_events] at hte
    simp only [disposeFn_jobCounter]
    exact h12 te hte i hstart
  · intro te hte j hj
    simp at hj

theorem wf_addListener {α β : Type} (k : EventKind) (lid : Nat) (st : QState α β)
    (h : WF st) : WF (addListenerFn k lid st) := by
  obtain ⟨h1, h2, h3, h4, h5, h6, h7, h8, h9, h10, h11, h12, h13⟩ := h
  exact ⟨h1, h2, h3, h4, h5, h6, h7, h8, h9, h10, h11, h12, h13⟩

theorem wf_removeListener {α β : Type} (k : EventKind) (lid : Nat) (st : QState α β)
    (h : WF st) : WF (removeListenerFn k lid st) := by
  obtain ⟨h1, h2, h3, h4, h5, h6, h7, h8, h9, h10, h11, h12, h13⟩ := h
  exact ⟨h1, h2, h3, h4, h5, h6, h7, h8, h9, h10, h11, h12, h13⟩

theorem wf_step {α β : Type} {s s2 : QState α β} (h : WF s) (hs : Step s s2) : WF s2 := by
  cases hs with
  | addJob d => exact wf_addJob d s h
  | abortJob id => exact wf_abortJob id s h
  | dispatch k hk => exact wf_dispatchK k s hk h
  | finish id d out hrun => exact wf_finish id d out s hrun h
  | emptyCheck hq hr => exact wf_emptyCheck s hq hr h
  | dispose => exact wf_dispose s h
  | addListener k lid => exact wf_addListener k lid s h
  | removeListener k lid => exact wf_removeListener k lid s h

theorem reachable_wf {α β : Type} {s s2 : QState α β} (h : WF s) (hr : Reachable s s2) :
    WF s2 := by
  induction hr with
  | refl => exact h
  | tail hab hbc ih => exact wf_step ih hbc

theorem step_maxConcurrent {α β : Type} {s s2 : QState α β} (hs : Step s s2) :
    s2.maxConcurrent = s.maxConcurrent := by
  cases hs with
  | addJob d => simp
  | abortJob id => exact abortJobFn_maxConcurrent id s
  | dispatch k hk => exact dispatchK_maxConcurrent k s
  | finish id d out hrun => simp
  | emptyCheck hq hr => rfl
  | dispose => simp
  | addListener k lid => rfl
  | removeListener k lid => rfl

theorem reachable_maxConcurrent {α β : Type} {s s2 : QState α β} (hr : Reachable s s2) :
    s2.maxConcurrent = s.maxConcurrent := by
  induction hr with
  | refl => rfl
  | tail hab hbc ih => rw [step_maxConcurrent hbc, ih]

theorem step_jobCounter_mono {α β : Type} {s s2 : QState α β} (hs : Step s s2) :
    s.jobCounter ≤ s2.jobCounter := by
  cases hs with
  | addJob d => simp
  | abortJob id => rw [abortJobFn_jobCounter id s]
  | dispatch k hk => rw [dispatchK_jobCounter k s]
  | finish id d out hrun => simp
  | emptyCheck hq hr => exact le_refl _
  | dispose => simp
  | addListener k lid => exact le_refl _
  | removeListener k lid => exact le_refl _

theorem abortJobFn_queue_mem {α β : Type} (id2 : Nat) (st : QState α β) (j : Job α)
    (h : j ∈ (abortJobFn id2 st).2.queue) : j ∈ st.queue := by
  revert h
  unfold abortJobFn
  cases findJobIdx id2 st.queue with
  | some i =>
      intro h
      simp only [settleOnce_queue, triggerAbort_queue] at h
      exact mem_spliceOut _ _ _ h
  | none =>
      by_cases hr : id2 ∈ st.running
      · simp only [hr, if_true]
        cases findJob id2 st.queue <;> intro h <;> simpa using h
      · simp only [hr, if_false]
        exact fun h => h

theorem step_events_extend {α β : Type} {s s2 : QState α β} (hs : Step s s2) :
    ∀ te ∈ s2.events, te ∈ s.events ∨
      ∀ i, startId? te.2 = some i → i ∈ s.queue.map Job.id := by
  cases hs with
  | addJob d =>
      intro te hte
      rw [addJobFn_events] at hte
      exact Or.inl hte
  | abortJob id =>
      intro te hte
      rw [abortJobFn_events] at hte
      exact Or.inl hte
  | dispatch k hk =>
      intro te hte
      rw [dispatchK_events] at hte
      rcases List.mem_append.mp hte with hte | hte
      · exact Or.inl hte
      · right
        rcases List.mem_map.mp hte with ⟨j, hj, hj2⟩
        intro i hstart
        rw [← hj2] at hstart
        have heq := Option.some.inj hstart
        rw [← heq]
        exact List.mem_map_of_mem Job.id (List.take_subset _ _ hj)
  | finish id d out hrun =>
      intro te hte
      rw [finishJobFn_events] at hte
      rcases List.mem_append.mp hte with hte | hte
      · exact Or.inl hte
      · right
        intro i hstart
        simp only [List.mem_singleton] at hte
        subst hte
        rw [show ((s.now, eventOfOutcome id d out) : Nat × Event α β).2 =
          eventOfOutcome id d out from rfl, startId?_eventOfOutcome] at hstart
        cases hstart
  | emptyCheck hq hr =>
      intro te hte
      have hte2 : te ∈ s.events ++ [(s.now, Event.queueEmpty)] := hte
      rcases List.mem_append.mp hte2 with hte3 | hte3
      · exact Or.inl hte3
      · right
        intro i hstart
        simp only [List.mem_singleton] at hte3
        subst hte3
        rw [show ((s.now, (Event.queueEmpty : Event α β)) : Nat × Event α β).2 =
          Event.queueEmpty from rfl] at hstart
        simp [startId?] at hstart
  | dispose =>
      intro te hte
      rw [disposeFn_events] at hte
      exact Or.inl hte
  | addListener k lid =>
      intro te hte
      exact Or.inl hte
  | removeListener k lid =>
      intro te hte
      exact Or.inl hte

theorem noMoreStart_step {α β : Type} {s s2 : QState α β} (id : Nat)
    (hn : NoMoreStart id s) (hs : Step s s2) : NoMoreStart id s2 := by
  obtain ⟨hq, hc, he⟩ := hn
  refine ⟨?_, le_trans hc (step_jobCounter_mono hs), ?_⟩
  · cases hs with
    | addJob d =>
        intro j hj
        rw [addJobFn_queue] at hj
        rcases List.mem_append.mp hj with hj | hj
        · exact hq j hj
        · simp only [List.mem_singleton] at hj
          subst hj
          show s.jobCounter + 1 ≠ id
          omega
    | abortJob id2 =>
        intro j hj
        exact hq j (abortJobFn_queue_mem id2 s j hj)
    | dispatch k hk =>
        intro j hj
        rw [dispatchK_queue] at hj
        exact hq j (List.drop_subset _ _ hj)
    | finish id2 d out hrun =>
        intro j hj
        rw [finishJobFn_queue] at hj
        exact hq j hj
    | emptyCheck hq2 hr2 =>
        intro j hj
        exact hq j hj
    | dispose =>
        intro j hj
        simp at hj
    | addListener k lid =>
        intro j hj
        exact hq j hj
    | removeListener k lid =>
        intro j hj
        exact hq j hj
  · intro te hte
    rcases step_events_extend hs te hte with h2 | h2
    · exact he te h2
    · intro hcontra
      rcases List.mem_map.mp (h2 id hcontra) with ⟨j, hj, hj2⟩
      exact hq j hj hj2

theorem noMoreStart_reachable {α β : Type} {s s2 : QState α β} (id : Nat)
    (hn : NoMoreStart id s) (hr : Reachable s s2) : NoMoreStart id s2 := by
  induction hr with
  | refl => exact hn
  | tail hab hbc ih => exact noMoreStart_step id ih hbc

theorem foldFinish_events {α β : Type} (dur : α → Nat) (out : α → Except Thrown β) (t0 : Nat) :
    ∀ (l : List (Job α)) (s : QState α β),
      ∃ rest, (l.foldl (fun s2 job => finishJobFn job.id job.data (out job.data)
            { s2 with now := t0 + dur job.data }) s).events = s.events ++ rest
        ∧ ∀ te ∈ rest, startId? te.2 = none := by
  intro l
  induction l with
  | nil =>
      intro s
      exact ⟨[], by simp, by simp⟩
  | cons j js ih =>
      intro s
      rw [List.foldl_cons]
      rcases ih (finishJobFn j.id j.data (out j.data) { s with now := t0 + dur j.data }) with
        ⟨rest, hrest, hnone⟩
      refine ⟨(t0 + dur j.data, eventOfOutcome j.id j.data (out j.data)) :: rest, ?_, ?_⟩
      · rw [hrest]
        rw [finishJobFn_events]
        simp
      · intro te hte
        rcases List.mem_cons.mp hte with hte | hte
        · rw [hte]
          exact startId?_eventOfOutcome _ _ _
        · exact hnone te hte

theorem foldDispose_lookup_ne {α β : Type} :
    ∀ (l : List (Job α)) (s : QState α β) (k2 : Nat), k2 ∉ l.map Job.id →
      alookup k2 (l.foldl disposeSettle s).settlements = alookup k2 s.settlements
        ∧ alookup k2 (l.foldl disposeSettle s).controllers = alookup k2 s.controllers := by
  intro l
  induction l with
  | nil => exact fun s k2 _ => ⟨rfl, rfl⟩
  | cons j js ih =>
      intro s k2 hk2
      simp only [List.map_cons, List.mem_cons, not_or] at hk2
      rw [List.foldl_cons]
      rcases ih (disposeSettle s j) k2 (by simpa using hk2.2) with ⟨e1, e2⟩
      constructor
      · rw [e1]
        show alookup k2 (settleOnce j.id _ (triggerAbort j.id s)).settlements = _
        rw [settleOnce_lookup_ne j.id k2 _ _ hk2.1]
        rfl
      · rw [e2]
        show alookup k2 (settleOnce j.id _ (triggerAbort j.id s)).controllers = _
        rw [settleOnce_controllers, triggerAbort_controllers]
        exact alookup_setAssoc_ne j.id k2 true s.controllers hk2.1

theorem foldDispose_lookup_self {α β : Type} :
    ∀ (l : List (Job α)) (s : QState α β) (jb : Job α), jb ∈ l →
      (l.map Job.id).Nodup →
      alookup jb.id s.settlements = none →
      (alookup jb.id s.controllers).isSome = true →
      alookup jb.id (l.foldl disposeSettle s).settlements =
          some (Settlement.rejected (Thrown.err ⟨"JobQueue disposed"⟩))
        ∧ alookup jb.id (l.foldl disposeSettle s).controllers = some true := by
  intro l
  induction l with
  | nil => intro s jb h; simp at h
  | cons j js ih =>
      intro s jb hjb hnd huns hctrl
      simp only [List.map_cons, List.nodup_cons] at hnd
      rw [List.foldl_cons]
      rcases List.mem_cons.mp hjb with hjb2 | hjb2
      · subst hjb2
        have hsett : alookup jb.id (disposeSettle s jb).settlements =
            some (Settlement.rejected (Thrown.err ⟨"JobQueue disposed"⟩)) := by
          show alookup jb.id (settleOnce jb.id _ (triggerAbort jb.id s)).settlements = _
          exact settleOnce_lookup_self jb.id _ (triggerAbort jb.id s) huns
        have hctrl2 : alookup jb.id (disposeSettle s jb).controllers = some true := by
          show alookup jb.id (settleOnce jb.id _ (triggerAbort jb.id s)).controllers = _
          rw [settleOnce_controllers, triggerAbort_controllers]
          exact alookup_setAssoc_self jb.id true s.controllers hctrl
        rcases foldDispose_lookup_ne js (disposeSettle s jb) jb.id hnd.1 with ⟨e1, e2⟩
        exact ⟨by rw [e1, hsett], by rw [e2, hctrl2]⟩
      · have hne : jb.id ≠ j.id := by
          intro hcontra
          exact hnd.1 (hcontra ▸ List.mem_map_of_mem Job.id hjb2)
        have huns2 : alookup jb.id (disposeSettle s j).settlements = none := by
          show alookup jb.id (settleOnce j.id _ (triggerAbort j.id s)).settlements = none
          rw [settleOnce_lookup_ne j.id jb.id _ _ hne]
          exact huns
        have hctrl2 : (alookup jb.id (disposeSettle s j).controllers).isSome = true := by
          show (alookup jb.id (settleOnce j.id _ (triggerAbort j.id s)).controllers).isSome
            = true
          rw [settleOnce_controllers, triggerAbort_controllers]
          exact alookup_setAssoc_isSome j.id jb.id true s.controllers hctrl
        exact ih (disposeSettle s j) jb hjb2 hnd.2 huns2 hctrl2

/-! Claim theorems. -/

/-- Claim C3: for the cancellable delay, a token already cancelled at call time
makes the call fail immediately with the Cancelled ("Aborted") error without
registering a timer; a token cancelled strictly before the duration elapses
makes the call fail with the Cancelled error, the timer cleared and settlement
at the cancellation instant (no late resolution); and if the duration elapses
first (or the token never fires) the delay succeeds. -/
theorem sleep_cancellation_spec (ms : Nat) :
    (∀ ab, sleep ms (SignalModel.signal true ab) =
      ⟨Except.error ⟨"Aborted"⟩, some 0, false, false⟩)
    ∧ (∀ t, t < ms → sleep ms (SignalModel.signal false (some t)) =
      ⟨Except.error ⟨"Aborted"⟩, some t, true, true⟩)
    ∧ (∀ t, ms ≤ t → sleep ms (SignalModel.signal false (some t)) =
      ⟨Except.ok (), some ms, true, false⟩)
    ∧ sleep ms (SignalModel.signal false none) = ⟨Except.ok (), some ms, true, false⟩ := by
  refine ⟨fun ab => rfl, fun t ht => ?_, fun t ht => ?_, rfl⟩
  · simp [sleep, ht]
  · simp [sleep, Nat.not_lt.mpr ht]

/-- Witness for C3 at ms = 10 with cancellation at t = 5 (and at t = 12). -/
theorem sleep_cancellation_spec_witness :
    (5 : Nat) < 10 ∧ (10 : Nat) ≤ 12
    ∧ sleep 10 (SignalModel.signal false (some 5)) =
        ⟨Except.error ⟨"Aborted"⟩, some 5, true, true⟩
    ∧ sleep 10 (SignalModel.signal false (some 12)) =
        ⟨Except.ok (), some 10, true, false⟩ := by
  exact ⟨by decide, by decide, (sleep_cancellation_spec 10).2.1 5 (by decide),
    (sleep_cancellation_spec 10).2.2.1 12 (by decide)⟩

/-- Claim C1 (code bug): in any reachable state in which the job id is in the
running set — and hence, by the invariants, no longer in the pending queue —
abortJob returns false and leaves the state entirely unchanged: the running
job's cancellation source is NOT triggered, because the source looks the job
record up in the pending queue, which no longer holds it.  The claim (and the
spec's intended contract) say it returns true and triggers the source. -/
theorem abortJob_running_noop {α β : Type} (m i : Nat) (st : QState α β)
    (hreach : Reachable (initState α β m i) st) (id : Nat) (hrun : id ∈ st.running) :
    abortJobFn id st = (false, st) := by
  have hwf := reachable_wf (wf_init α β m i) hreach
  have hnq : ∀ j ∈ st.queue, j.id ≠ id := by
    intro j hj hj2
    exact hwf.qrDisjoint id (hj2 ▸ List.mem_map_of_mem Job.id hj) hrun
  unfold abortJobFn
  rw [findJobIdx_eq_none id st.queue hnq, findJob_eq_none id st.queue hnq]
  simp [hrun]

/-- Witness for C1: after submitting one job to a limit-1 scheduler and
dispatching it, job 1 is running; abortJob 1 returns false and changes
nothing. -/
theorem abortJob_running_noop_witness :
    (1 ∈ oneRunningSt.running) ∧ abortJobFn 1 oneRunningSt = (false, oneRunningSt) := by
  have hreach : Reachable (initState Nat Nat 1 0) oneRunningSt := by
    have h1 : Step (initState Nat Nat 1 0) onePendingSt := Step.addJob _ 5
    have h2 : Step onePendingSt oneRunningSt := Step.dispatch _ 1 (by decide)
    exact Relation.ReflTransGen.tail (Relation.ReflTransGen.single h1) h2
  exact ⟨by decide, abortJob_running_noop 1 0 oneRunningSt hreach 1 (by decide)⟩

/-- Claim C2: cancelling a job still in the pending queue returns true, splices
it out of the queue, triggers its cancellation source, rejects its promise with
the Job job-n aborted error, and no jobStart event for that job is ever
emitted afterwards, whatever the scheduler goes on to do. -/
theorem cancel_pending_spec {α β : Type} (m i : Nat) (st : QState α β)
    (hreach : Reachable (initState α β m i) st) (jb : Job α) (hjb : jb ∈ st.queue) :
    (abortJobFn jb.id st).1 = true
    ∧ (∀ j2 ∈ (abortJobFn jb.id st).2.queue, j2.id ≠ jb.id)
    ∧ alookup jb.id (abortJobFn jb.id st).2.settlements =
        some (Settlement.rejected (Thrown.err ⟨"Job " ++ mkJobId jb.id ++ " aborted"⟩))
    ∧ alookup jb.id (abortJobFn jb.id st).2.controllers = some true
    ∧ ∀ s2, Reachable (abortJobFn jb.id st).2 s2 →
        ∀ te ∈ s2.events, startId? te.2 ≠ some jb.id := by
  have hwf := reachable_wf (wf_init α β m i) hreach
  have hsome := findJobIdx_isSome_of_mem st.queue jb hjb
  cases hidx : findJobIdx jb.id st.queue with
  | none =>
      rw [hidx] at hsome
      simp at hsome
  | some i =>
      have hunsettled : alookup jb.id st.settlements = none := by
        cases hv2 : alookup jb.id st.settlements with
        | none => rfl
        | some v =>
            exact absurd (List.mem_map_of_mem Job.id hjb)
              (hwf.settledOutQ _ (alookup_mem _ _ _ hv2))
      have hctrl : (alookup jb.id st.controllers).isSome = true :=
        hwf.ctrlCover jb.id (List.mem_map_of_mem Job.id hjb)
      have hq2 : ∀ j2 ∈ (abortJobFn jb.id st).2.queue, j2.id ≠ jb.id := by
        unfold abortJobFn
        rw [hidx]
        simp only [settleOnce_queue, triggerAbort_queue]
        exact spliceOut_findJobIdx jb.id st.queue i hwf.queueNodup hidx
      have hnms : NoMoreStart jb.id (abortJobFn jb.id st).2 := by
        refine ⟨hq2, ?_, ?_⟩
        · rw [abortJobFn_jobCounter]
          exact hwf.queueLe jb.id (List.mem_map_of_mem Job.id hjb)
        · intro te hte
          rw [abortJobFn_events] at hte
          exact hwf.startNotQueued te hte jb hjb
      refine ⟨?_, hq2, ?_, ?_, ?_⟩
      · unfold abortJobFn
        rw [hidx]
      · unfold abortJobFn
        rw [hidx]
        exact settleOnce_lookup_self jb.id _ (triggerAbort jb.id st) hunsettled
      · unfold abortJobFn
        rw [hidx]
        simp only [settleOnce_controllers, triggerAbort_controllers]
        exact alookup_setAssoc_self _ _ _ hctrl
      · intro s2 hr2 te hte
        exact (noMoreStart_reachable jb.id hnms hr2).2.2 te hte

/-- Witness for C2: cancelling the single pending job of a fresh limit-1
scheduler. -/
theorem cancel_pending_spec_witness :
    ((⟨1, 5⟩ : Job Nat) ∈ onePendingSt.queue)
    ∧ (abortJobFn 1 onePendingSt).1 = true
    ∧ alookup 1 (abortJobFn 1 onePendingSt).2.settlements =
        some (Settlement.rejected (Thrown.err ⟨"Job " ++ mkJobId 1 ++ " aborted"⟩))
    ∧ alookup 1 (abortJobFn 1 onePendingSt).2.controllers = some true := by
  have hreach : Reachable (initState Nat Nat 1 0) onePendingSt :=
    Relation.ReflTransGen.single (Step.addJob _ 5)
  have h := cancel_pending_spec 1 0 onePendingSt hreach ⟨1, 5⟩ (by decide)
  exact ⟨by decide, h.1, h.2.2.1, h.2.2.2.1⟩

/-- Claim C9: requesting cancellation through the job promise after the promise
has already settled is a no-op: abortJob finds the id in neither collection
(settled jobs are in neither, by the invariants), returns false, and the state
is unchanged — nothing is mutated and nothing further is settled. -/
theorem requestCancellation_settled_noop {α β : Type} (m i : Nat) (st : QState α β)
    (hreach : Reachable (initState α β m i) st) (id : Nat) (v : Settlement β)
    (hsettled : alookup id st.settlements = some v) :
    jobPromiseAbort id st = st ∧ abortJobFn id st = (false, st) := by
  have hwf := reachable_wf (wf_init α β m i) hreach
  have hmem := alookup_mem id v st.settlements hsettled
  have hnq : ∀ j ∈ st.queue, j.id ≠ id := by
    intro j hj hj2
    exact hwf.settledOutQ _ hmem (hj2 ▸ List.mem_map_of_mem Job.id hj)
  have hnr : id ∉ st.running := hwf.settledOutR _ hmem
  have h : abortJobFn id st = (false, st) := by
    unfold abortJobFn
    rw [findJobIdx_eq_none id st.queue hnq]
    simp [hnr]
  refine ⟨?_, h⟩
  unfold jobPromiseAbort
  rw [h]

/-- Witness for C9: the job of `c7Bad` settled (rejected); aborting it again is
a no-op. -/
theorem requestCancellation_settled_noop_witness :
    alookup 1 c7Bad.settlements = some (Settlement.rejected (Thrown.raw "boom"))
    ∧ jobPromiseAbort 1 c7Bad = c7Bad := by
  have hreach : Reachable (initState Nat Nat 1 0) c7Bad := by
    have h1 : Step (initState Nat Nat 1 0) onePendingSt := Step.addJob _ 5
    have h2 : Step onePendingSt oneRunningSt := Step.dispatch _ 1 (by decide)
    have h3 : Step oneRunningSt c7Bad :=
      Step.finish _ 1 5 (Except.error (Thrown.raw "boom")) (by decide)
    exact Relation.ReflTransGen.tail (Relation.ReflTransGen.tail
      (Relation.ReflTransGen.single h1) h2) h3
  exact ⟨by decide, (requestCancellation_settled_noop 1 0 c7Bad hreach 1
    (Settlement.rejected (Thrown.raw "boom")) (by decide)).1⟩

/-- Claim C5: in every state reachable from a scheduler constructed with
concurrency limit m, the running set holds at most m jobs; every atomic
segment (submit, cancel, any stretch of the dispatch for-loop, job completion,
the idle check, dispose, listener management) preserves this. -/
theorem running_le_concurrencyLimit {α β : Type} (m i : Nat) (st : QState α β)
    (hreach : Reachable (initState α β m i) st) : st.running.length ≤ m := by
  have hwf := reachable_wf (wf_init α β m i) hreach
  have hmax : st.maxConcurrent = m := by
    rw [reachable_maxConcurrent hreach]
    rfl
  rw [← hmax]
  exact hwf.runBound

/-- Witness for C5: the limit-1 scheduler with its one job dispatched. -/
theorem running_le_concurrencyLimit_witness :
    oneRunningSt.running.length ≤ 1 := by
  have hreach : Reachable (initState Nat Nat 1 0) oneRunningSt := by
    have h1 : Step (initState Nat Nat 1 0) onePendingSt := Step.addJob _ 5
    have h2 : Step onePendingSt oneRunningSt := Step.dispatch _ 1 (by decide)
    exact Relation.ReflTransGen.tail (Relation.ReflTransGen.single h1) h2
  exact running_le_concurrencyLimit 1 0 oneRunningSt hreach

/-- Claim C4: batch quantization on the stipulated scenario.  With limit 2 and
jobs of durations 30, 10, 20 submitted in that order: batch 1 is jobs 1 and 2
(durations 30 and 10, both started at time 0), batch 2 is job 3 alone, whose
jobStart fires only at time 30 — after both batch-1 completions (at 10 and 30)
— and the completion order is job 2 (10ms), job 1 (30ms), job 3 (20ms, at 50). -/
theorem batch_quantization_trace :
    c4Final.events =
      [(0, Event.jobStart 1 30), (0, Event.jobStart 2 10),
       (10, Event.jobComplete 2 10 10), (30, Event.jobComplete 1 30 30),
       (30, Event.jobStart 3 20), (50, Event.jobComplete 3 20 20),
       (50, Event.queueEmpty)]
    ∧ c4Final.settlements =
      [(2, Settlement.resolved 10), (1, Settlement.resolved 30), (3, Settlement.resolved 20)]
    ∧ c4Final.queue = [] ∧ c4Final.running = [] := by
  exact ⟨rfl, rfl, rfl, rfl⟩

/-- Claim C6: in one processAvailableJobs call, the jobStart events of the batch
are appended in queue (submission) order, and everything appended after them —
the completion segments, which run only once the barrier starts awaiting — is
never a jobStart. -/
theorem batch_jobStart_order {α β : Type} (dur : α → Nat) (out : α → Except Thrown β)
    (st : QState α β) :
    ∃ rest, (runBatchTimed dur out st).events =
        st.events ++ (st.queue.take (batchSize st)).map
          (fun j => (st.now, Event.jobStart j.id j.data)) ++ rest
      ∧ ∀ te ∈ rest, startId? te.2 = none := by
  by_cases hk : batchSize st = 0
  · refine ⟨[], ?_, by simp⟩
    simp [runBatchTimed, hk]
  · rcases foldFinish_events dur out (dispatchK (batchSize st) st).now
        (sortByDur dur (st.queue.take (batchSize st))) (dispatchK (batchSize st) st) with
      ⟨rest, hrest, hnone⟩
    refine ⟨rest, ?_, hnone⟩
    show (if batchSize st = 0 then st else _).events = _
    rw [if_neg hk]
    rw [hrest, dispatchK_events]

/-- Claim C7 counterexample: a processor that throws the non-Error value "boom"
produces a jobError event carrying the normalized Error("boom"), but the
promise is rejected with the raw thrown value, which is not that normalized
error — the claim's "settled (rejected) with that error" fails. -/
theorem job_failure_reject_raw_cex :
    c7Bad.events = [(0, Event.jobStart 1 5), (0, Event.jobError 1 5 ⟨"boom"⟩)]
    ∧ alookup 1 c7Bad.settlements = some (Settlement.rejected (Thrown.raw "boom"))
    ∧ alookup 1 c7Bad.settlements ≠
        some (Settlement.rejected (Thrown.err (normalizeError (Thrown.raw "boom")))) := by
  exact ⟨rfl, rfl, by decide⟩

/-- Claim C7 (amended): when a processor fails, the error is normalized and the
jobError event carries the normalized error; the promise is rejected with the
original thrown value — which coincides with the normalized error exactly when
the processor threw a genuine Error; the failure touches neither the queue nor
any other job's settlement, and (concrete two-job scenario) the loop carries on:
the second job of the batch still completes and the queue drains to idle. -/
theorem job_failure_amended {α β : Type} (st : QState α β) (id : Nat) (d : α) (e : Thrown)
    (huns : alookup id st.settlements = none) :
    (finishJobFn id d (Except.error e) st).events =
        st.events ++ [(st.now, Event.jobError id d (normalizeError e))]
    ∧ alookup id (finishJobFn id d (Except.error e) st).settlements =
        some (Settlement.rejected e)
    ∧ (∀ e2, e = Thrown.err e2 → normalizeError e = e2)
    ∧ (finishJobFn id d (Except.error e) st).queue = st.queue
    ∧ (∀ k2, k2 ≠ id → alookup k2 (finishJobFn id d (Except.error e) st).settlements =
        alookup k2 st.settlements)
    ∧ alookup 1 c7PairEnd.settlements = some (Settlement.rejected (Thrown.raw "boom"))
    ∧ alookup 2 c7PairEnd.settlements = some (Settlement.resolved 2)
    ∧ c7PairEnd.queue = [] ∧ c7PairEnd.processingActive = false := by
  refine ⟨?_, ?_, ?_, finishJobFn_queue _ _ _ _, ?_, rfl, rfl, rfl, rfl⟩
  · rw [finishJobFn_events]
    rfl
  · rw [finishJobFn_settlements]
    exact settleOnce_lookup_self id _ st huns
  · intro e2 he
    rw [he]
    rfl
  · intro k2 hk2
    rw [finishJobFn_settlements]
    exact settleOnce_lookup_ne id k2 _ st hk2

/-- Witness for C7 (amended) at the running job of `oneRunningSt` failing with
the raw value "boom". -/
theorem job_failure_amended_witness :
    alookup 1 oneRunningSt.settlements = none
    ∧ alookup 1 (finishJobFn 1 5 (Except.error (Thrown.raw "boom")) oneRunningSt).settlements =
        some (Settlement.rejected (Thrown.raw "boom")) := by
  exact ⟨by decide,
    (job_failure_amended oneRunningSt 1 5 (Thrown.raw "boom") (by decide)).2.1⟩

/-- Claim C8: dispose clears the pending queue and the processing flag, and for
every job that was still pending triggers its cancellation source and rejects
its promise with the JobQueue disposed error, while the running set and every
id outside the pending queue (in particular every running job) keep their
controller state and settlements untouched; in the concrete limit-1 scenario
the pending job 2 is aborted and rejected while running job 1's controller
stays unaborted, job 1 later settles normally with its result, no jobStart for
job 2 ever appears, and the loop's next iteration dispatches nothing and
stops. -/
theorem dispose_spec {α β : Type} (m i : Nat) (st : QState α β)
    (hreach : Reachable (initState α β m i) st) :
    (disposeFn st).queue = []
    ∧ (disposeFn st).running = st.running
    ∧ (disposeFn st).processingActive = false
    ∧ (∀ jb ∈ st.queue,
        alookup jb.id (disposeFn st).settlements =
            some (Settlement.rejected (Thrown.err ⟨"JobQueue disposed"⟩))
          ∧ alookup jb.id (disposeFn st).controllers = some true)
    ∧ (∀ k2, k2 ∉ st.queue.map Job.id →
        alookup k2 (disposeFn st).settlements = alookup k2 st.settlements
          ∧ alookup k2 (disposeFn st).controllers = alookup k2 st.controllers)
    ∧ alookup 2 c8Disposed.settlements =
        some (Settlement.rejected (Thrown.err ⟨"JobQueue disposed"⟩))
    ∧ alookup 2 c8Disposed.controllers = some true
    ∧ alookup 1 c8Disposed.controllers = some false
    ∧ c8Disposed.running = [1]
    ∧ alookup 1 c8End.settlements = some (Settlement.resolved 50)
    ∧ (∀ te ∈ c8End.events, startId? te.2 ≠ some 2)
    ∧ (loopStepTimed natDur natOk c8AfterRun).2 = true := by
  have hwf := reachable_wf (wf_init α β m i) hreach
  refine ⟨rfl, disposeFn_running st, disposeFn_processingActive st, ?_, ?_,
    rfl, rfl, rfl, rfl, rfl, by decide, rfl⟩
  · intro jb hjb
    have hunsettled : alookup jb.id st.settlements = none := by
      cases hv2 : alookup jb.id st.settlements with
      | none => rfl
      | some v =>
          exact absurd (List.mem_map_of_mem Job.id hjb)
            (hwf.settledOutQ _ (alookup_mem _ _ _ hv2))
    have hctrl : (alookup jb.id st.controllers).isSome = true :=
      hwf.ctrlCover jb.id (List.mem_map_of_mem Job.id hjb)
    have h := foldDispose_lookup_self st.queue { st with processingActive := false }
      jb hjb hwf.queueNodup hunsettled hctrl
    exact ⟨by rw [disposeFn_settlements]; exact h.1,
      by rw [disposeFn_controllers]; exact h.2⟩
  · intro k2 hk2
    have h := foldDispose_lookup_ne st.queue { st with processingActive := false } k2 hk2
    exact ⟨by rw [disposeFn_settlements]; exact h.1,
      by rw [disposeFn_controllers]; exact h.2⟩

/-- Witness for C8: dispose at the instant job 1 runs and job 2 is pending. -/
theorem dispose_spec_witness :
    ((⟨2, 60⟩ : Job Nat) ∈ c8Mid.queue)
    ∧ alookup 2 (disposeFn c8Mid).settlements =
        some (Settlement.rejected (Thrown.err ⟨"JobQueue disposed"⟩))
    ∧ alookup 2 (disposeFn c8Mid).controllers = some true
    ∧ (disposeFn c8Mid).queue = [] := by
  have hreach : Reachable (initState Nat Nat 1 0) c8Mid := by
    have h1 : Step (initState Nat Nat 1 0) ((addJobFn 50 (initState Nat Nat 1 0)).2) :=
      Step.addJob _ 50
    have h2 : Step ((addJobFn 50 (initState Nat Nat 1 0)).2) c8Queued := Step.addJob _ 60
    have h3 : Step c8Queued c8Mid := Step.dispatch _ (batchSize c8Queued) (le_refl _)
    exact Relation.ReflTransGen.tail (Relation.ReflTransGen.tail
      (Relation.ReflTransGen.single h1) h2) h3
  have h := dispose_spec 1 0 c8Mid hreach
  exact ⟨by decide, (h.2.2.2.1 ⟨2, 60⟩ (by decide)).1, (h.2.2.2.1 ⟨2, 60⟩ (by decide)).2, h.1⟩

/-- Claim C10: the constructor starts the loop (processing flag set) yet emits
nothing synchronously; the first loop iteration — running on a later microtask
— finds the queue empty and emits queueEmpty before any submission, so a
listener registered synchronously right after construction receives that
initial queueEmpty, and the loop then stops. -/
theorem construction_initial_queueEmpty :
    c10Constructed.events = []
    ∧ c10Constructed.processingActive = true
    ∧ c10Final.events = [(0, Event.queueEmpty)]
    ∧ c10Final.delivered = [(7, Event.queueEmpty)]
    ∧ c10Final.processingActive = false := by
  exact ⟨rfl, rfl, rfl, rfl, rfl⟩

end JsrUtils
